import Mathlib

/-!
# shield2fluka: a shallow embedding of `src/pymchelper/shield2fluka.c`

The program reads a SHIELD geometry file through one input stream and writes a
FLUKA input deck to `output.inp`.

Conventions of the embedding.

* A stream is the list of characters still unread (`fgetc` on `[]` is `EOF`).
* A `char` array is a `List Char` updated with `List.set`; the string held by
  an array is the part before its first NUL character.
* `int` values are `Int`; arithmetic on them wraps at 32 bits (`wrapInt`).
* Behaviour that C leaves undefined is the result `Fault.undefined`; a `while`
  loop that has not finished when its fuel runs out is `Fault.outOfFuel`.
-/

namespace Shield2Fluka

/-! ## Characters and C strings -/

/-- The string terminator. -/
def NUL : Char := Char.ofNat 0

/-- The value of `len` in `main`, also the size of `buff` and `buff2`. -/
def len : Nat := 100

/-- The size of the array `val` in `main`. -/
def VAL_SIZE : Nat := 4096

/-- The macro `VERSION`. -/
def VERSION : List Char := "1.1".toList

/-- What can go wrong while running the model. -/
inductive Fault where
  | undefined
  | outOfFuel
deriving DecidableEq

deriving instance DecidableEq for Except

/-- The C library predicate `isspace` in the "C" locale. -/
def isspace (c : Char) : Bool :=
  c == ' ' || c == '\t' || c == '\n' || c == Char.ofNat 11 || c == Char.ofNat 12 || c == '\r'

/-- The string stored at the start of a character array: the characters before
the first NUL. -/
def cstr (s : List Char) : List Char :=
  s.takeWhile (fun c => c != NUL)

/-- The string read from a character array by `%s` or `strcmp`; reading an
array that holds no terminator runs past its end. -/
def cstrOf (s : List Char) : Except Fault (List Char) :=
  if NUL ∈ s then .ok (cstr s) else .error .undefined

/-- The first whitespace-delimited token of a string, as the directive `%s`
of `sscanf` finds it; `none` when the string holds no token. -/
def firstToken (s : List Char) : Option (List Char) :=
  let t := (s.dropWhile isspace).takeWhile (fun c => !isspace c)
  if t = [] then none else some t

/-- The call `sscanf(buff, "%s", buff2)`: the new string held by `buff2`, which
is left as it was when `buff` holds no token. -/
def sscanf_s (buff : List Char) (buff2 : List Char) : Except Fault (List Char) := do
  let s ← cstrOf buff
  match firstToken s with
  | some t => pure t
  | none => pure buff2

/-- The call `fprintf(fp_out, "%s", buff)`: the output with the string of `buff`
appended. -/
def fprintf_s (out : List Char) (buff : List Char) : Except Fault (List Char) := do
  let s ← cstrOf buff
  pure (out ++ s)

/-! ## `mygetline` -/

/-- The value of the local `c` of `mygetline`: not yet assigned, the `EOF`
returned by `fgetc`, or a character. -/
inductive CVal where
  | unset
  | eof
  | chr (c : Char)
deriving DecidableEq

/-- The C constant `EOF`. -/
def EOF : Int := -1

/-- The state of `mygetline` after its `for` loop, and its result. -/
structure LineRead where
  /-- the array `s` -/
  buf : List Char
  /-- the stream `fp` -/
  fp : List Char
  /-- the counter `i`, and in the result the returned value -/
  i : Nat
  /-- the local `c` -/
  c : CVal
deriving DecidableEq

/-- The loop `for (i=0; i<lim-1 && (c=fgetc(fp))!=EOF && c!='\n'; ++i) s[i] = c;`
started at counter `i` with `c` holding `c`. -/
def mygetlineLoop (lim : Nat) : List Char → List Char → Nat → CVal → LineRead
  | [], s, i, c =>
    if i + 1 < lim then ⟨s, [], i, CVal.eof⟩ else ⟨s, [], i, c⟩
  | x :: fp, s, i, c =>
    if i + 1 < lim then
      if x = '\n' then ⟨s, fp, i, CVal.chr x⟩
      else mygetlineLoop lim fp (s.set i x) (i + 1) (CVal.chr x)
    else ⟨s, x :: fp, i, c⟩

/-- The result of `mygetline(fp, s, lim)`. -/
structure Getline where
  /-- the array `s` after the call -/
  buf : List Char
  /-- the stream after the call -/
  fp : List Char
  /-- the value returned -/
  ret : Int
deriving DecidableEq

/-- The statements of `mygetline` after its loop (lines 127 to 135). -/
def mygetlineEnd (r : LineRead) : Getline :=
  -- if (c == '\n') { s[i] = c; ++i; }
  let s1 := if r.c = CVal.chr '\n' then r.buf.set r.i '\n' else r.buf
  let i1 := if r.c = CVal.chr '\n' then r.i + 1 else r.i
  -- s[i] = '\0';
  let s2 := s1.set i1 NUL
  -- if (c==EOF) return(EOF); return i;
  if r.c = CVal.eof then ⟨s2, r.fp, EOF⟩ else ⟨s2, r.fp, (i1 : Int)⟩

/-- The function `mygetline`.  For `lim` below 2 the loop reads nothing and the
tests after it read a `c` that was never assigned; the model lets both tests
fail then. -/
def mygetline (fp : List Char) (s : List Char) (lim : Nat) : Getline :=
  mygetlineEnd (mygetlineLoop lim fp s 0 CVal.unset)

/-- The characters that `mygetline` moves from the stream to the array when
there is room for `n` of them: those before the first newline, and that
newline, as far as `n` and the stream reach. -/
def lineChunk : Nat → List Char → List Char
  | 0, _ => []
  | _ + 1, [] => []
  | n + 1, x :: r => if x = '\n' then [x] else x :: lineChunk n r

/-! ## Integers: `int` arithmetic, `%i` on output, `%i` on input -/

/-- The value an `int` holds after a result `x` is stored in it (32 bits, two's
complement). -/
def wrapInt (x : Int) : Int :=
  (x + 2147483648) % 4294967296 - 2147483648

/-- The C expression `a + b` on `int`. -/
def addInt (a b : Int) : Int :=
  wrapInt (a + b)

/-- The character of a decimal digit. -/
def digitChar (d : Nat) : Char :=
  Char.ofNat (48 + d)

/-- The decimal digits of `n`, most significant first; `fuel` bounds the
number of digits. -/
def decDigits : Nat → Nat → List Char
  | 0, _ => []
  | fuel + 1, n =>
    if n < 10 then [digitChar n] else decDigits fuel (n / 10) ++ [digitChar (n % 10)]

/-- The decimal numeral of a natural number. -/
def natDec (n : Nat) : List Char :=
  decDigits (n + 1) n

/-- The text that `printf` writes for `%i`. -/
def fmt_i (v : Int) : List Char :=
  if v < 0 then '-' :: natDec v.natAbs else natDec v.natAbs

/-- The text that `printf` writes for `%5i`: the numeral, with blanks on the left
when it has fewer than 5 characters. -/
def fmt_5i (v : Int) : List Char :=
  List.replicate (5 - (fmt_i v).length) ' ' ++ fmt_i v

/-- The text of `fprintf(fp_out,"ASSIGNMAT    %5i.0   %5i.0\n", a, b)`. -/
def assignmat (a b : Int) : List Char :=
  "ASSIGNMAT    ".toList ++ fmt_5i a ++ ".0   ".toList ++ fmt_5i b ++ ".0\n".toList

/-- The value of a digit character in bases up to 16. -/
def digitVal (c : Char) : Nat :=
  if '0' ≤ c ∧ c ≤ '9' then c.toNat - 48
  else if 'a' ≤ c ∧ c ≤ 'f' then c.toNat - 87
  else if 'A' ≤ c ∧ c ≤ 'F' then c.toNat - 55
  else 0

/-- Whether `c` is a digit of the base (8, 10 or 16). -/
def isDigitOf (base : Nat) (c : Char) : Bool :=
  if base = 16 then
    decide (('0' ≤ c ∧ c ≤ '9') ∨ ('a' ≤ c ∧ c ≤ 'f') ∨ ('A' ≤ c ∧ c ≤ 'F'))
  else decide ('0' ≤ c ∧ c ≤ '9' ∧ digitVal c < base)

/-- The number written by a string of digits in a base. -/
def numVal (base : Nat) (ds : List Char) : Nat :=
  ds.foldl (fun a c => a * base + digitVal c) 0

/-- The largest `long` (64 bits). -/
def LONG_MAX : Int := 9223372036854775807

/-- The value `strtol` gives for a sign and a magnitude: out of range it is the
nearest `long`. -/
def strtolVal (neg : Bool) (mag : Nat) : Int :=
  if neg then max (-(mag : Int)) (-LONG_MAX - 1) else min (mag : Int) LONG_MAX

/-- The sign read by `%i`: whether it is a minus, and the stream after it. -/
def scanSign : List Char → Bool × List Char
  | '-' :: r => (true, r)
  | '+' :: r => (false, r)
  | r => (false, r)

/-- The base indication read by `%i` after the sign: the base, whether a
leading `0` was read, and the stream after it. -/
def scanBase : List Char → Nat × Bool × List Char
  | '0' :: 'x' :: r => (16, true, r)
  | '0' :: 'X' :: r => (16, true, r)
  | '0' :: r => (8, true, r)
  | r => (10, false, r)

/-- The call `fscanf(fp, "%i", &a)` as the GNU C library performs it: blanks are
skipped, then a sign, a base indication (`0x` for 16, `0` for 8, else 10) and
the digits of that base are read.  The result is `none` when the call does not
return 1 (end of input, or no digit and no leading `0`), and otherwise the
value stored in `a` and the stream after the last character read.  A value out
of the range of `long` is replaced by the nearest `long` and then stored in the
`int`. -/
def fscanf_i (fp : List Char) : Option (Int × List Char) :=
  match fp.dropWhile isspace with
  | [] => none
  | c :: r =>
    let sg := scanSign (c :: r)
    let bs := scanBase sg.2
    let ds := bs.2.2.takeWhile (isDigitOf bs.1)
    if !bs.2.1 && ds.isEmpty then none
    else some (wrapInt (strtolVal sg.1 (numVal bs.1 ds)), bs.2.2.dropWhile (isDigitOf bs.1))

/-! ## `main` -/

/-- The ruled line written between the sections of the output. -/
def RULE : List Char :=
  "*---+----1----+----2----+----3----+----4----+----5----+----6----+----7----+----8\n".toList

/-- The ruled line written before and after the zone list. -/
def REGRULE : List Char :=
  "*-reg-----or-----or-----or-----or-----or-----or-----or-----or-----or-----\n".toList

/-- The text of the nine `fprintf` calls that open the output (lines 47 to 55). -/
def HEADER : List Char :=
  "TITLE\n".toList
  ++ ("SHIELD2FLUKA ver.".toList ++ VERSION ++ " generated .inp file.\n".toList)
  ++ RULE
  ++ "DEFAULTS                                                              HADROTHE  \n".toList
  ++ RULE
  ++ "BEAM           -0.15       0.0       0.0       4.0       4.0       1.0PROTON    \n".toList
  ++ "BEAMPOS          0.0       0.0      -1.0       0.0       0.0          POSITIVE  \n".toList
  ++ RULE
  ++ "GEOBEGIN                                                              COMBINAT  \n".toList

/-- The text of the five `fprintf` calls that close the output (lines 111 to 115). -/
def TRAILER : List Char :=
  RULE ++ "RANDOMIZE        1.0\n".toList ++ RULE ++ "START         20000.\n".toList
  ++ "STOP\n".toList

/-- The text written to standard output when no argument is given. -/
def USAGE : List Char :=
  ("This is shield2fluka v.".toList ++ VERSION ++ "\n".toList)
  ++ "Report bugs to Niels Bassler <bassler@phys.au.dk>.\n\n".toList
  ++ "Please specify input filename as argument, e.g.:\n\n".toList
  ++ "  shield2fluka pasin.dat\n".toList

/-- The variables of `main` that the copying loops read and write. -/
structure State where
  /-- the unread part of the input stream `fp` -/
  fp : List Char
  /-- the text written so far to `fp_out` -/
  fp_out : List Char
  /-- the array `buff` -/
  buff : List Char
  /-- the string held by `buff2` -/
  buff2 : List Char
deriving DecidableEq

/-- The string literal `"END"` that closes a section of the input. -/
def END : List Char := "END".toList

/-- The test `strcmp(buff2, "END") != 0` of both copying loops. -/
def notEnd (st : State) : Bool :=
  st.buff2 != END

/-- A `while` loop run with at most `fuel` tests of its condition that succeed. -/
def whileLoop (cond : State → Bool) (body : State → Except Fault State) :
    Nat → State → Except Fault State
  | 0, st => if cond st then .error .outOfFuel else .ok st
  | fuel + 1, st =>
    if cond st then
      match body st with
      | .ok st1 => whileLoop cond body fuel st1
      | .error e => .error e
    else .ok st

/-- The loop `for(i=0;i<20;i++) buff[i] = ' ';`. -/
def blankTitle (buff : List Char) : List Char :=
  (List.range 20).foldl (fun b i => b.set i ' ') buff

/-- Lines 60 to 64: the title line is read, its first 20 positions are blanked,
and it is written. -/
def titlePhase (st : State) : Except Fault State := do
  let r := mygetline st.fp st.buff len
  let b := blankTitle r.buf
  let out ← fprintf_s st.fp_out b
  pure { fp := r.fp, fp_out := out, buff := b, buff2 := st.buff2 }

/-- The body of the geometry loop (lines 68 to 70). -/
def geoBody (st : State) : Except Fault State := do
  let r := mygetline st.fp st.buff len
  let b2 ← sscanf_s r.buf st.buff2
  let out ← fprintf_s st.fp_out r.buf
  pure { fp := r.fp, fp_out := out, buff := r.buf, buff2 := b2 }

/-- The geometry loop (lines 66 to 71). -/
def geoLoop (fuel : Nat) (st : State) : Except Fault State :=
  whileLoop notEnd geoBody fuel st

/-- The test `!((buff[2]==' ') && (buff[3]==' ') && (buff[4]==' '))`. -/
def isPrimary (buff : List Char) : Bool :=
  !(buff.getD 2 NUL == ' ' && buff.getD 3 NUL == ' ' && buff.getD 4 NUL == ' ')

/-- The body of the zone-list loop (lines 82 to 87). -/
def zoneBody (st : State) : Except Fault State := do
  let r := mygetline st.fp st.buff len
  let b2 ← sscanf_s r.buf st.buff2
  let b := if isPrimary r.buf then r.buf.set 8 '5' else r.buf
  let out ← fprintf_s st.fp_out b
  pure { fp := r.fp, fp_out := out, buff := b, buff2 := b2 }

/-- The zone-list loop (lines 80 to 88). -/
def zoneLoop (fuel : Nat) (st : State) : Except Fault State :=
  whileLoop notEnd zoneBody fuel st

/-- The loop `while (fscanf(fp, "%i", &a) == 1) { val[i] = a; i++; }`: `val` is
the list of the entries stored so far, `i` its length.  A store beyond the
4096 entries of the array is undefined.  Each successful call reads at least
one character, so `fuel` above the length of the stream is never used up. -/
def readVals : Nat → List Char → List Int → Except Fault (List Int)
  | 0, _, _ => .error .outOfFuel
  | fuel + 1, fp, val =>
    match fscanf_i fp with
    | none => .ok val
    | some (a, fp1) =>
      if val.length < VAL_SIZE then readVals fuel fp1 (val ++ [a])
      else .error .undefined

/-- The loop of lines 105 to 109, with `k` iterations left to run from counter
`i`; reading an entry of `val` that was never stored is undefined. -/
def assignLoop (val : List Int) (n_zones : Nat) : Nat → Nat → List Char →
    Except Fault (List Char)
  | 0, _, out => .ok out
  | k + 1, i, out =>
    match val[i + n_zones]?, val[i]? with
    | some m, some z => assignLoop val n_zones k (i + 1) (out ++ assignmat (addInt m 2) z)
    | _, _ => .error .undefined

/-- The assignment emitter: `n_zones = i/2` and the loop of lines 105 to 109,
for the array `val` holding `i = val.length` parsed integers. -/
def emitAssign (val : List Int) (out : List Char) : Except Fault (List Char) :=
  assignLoop val (val.length / 2) (val.length / 2) 0 out

/-- The text of `printf("got %i zones  - %i\n", i, n_zones)`. -/
def gotZones (i n_zones : Nat) : List Char :=
  "got ".toList ++ fmt_i i ++ " zones  - ".toList ++ fmt_i n_zones ++ "\n".toList

/-- Lines 47 to 115 of `main`, run on the content `input` of the input file
with `buff` holding `buff0` at the start: the text written to `output.inp`
and the text written to standard output. -/
def transcode (fuel : Nat) (buff0 : List Char) (input : List Char) :
    Except Fault (List Char × List Char) := do
  -- lines 47-55, and strcpy(buff2,"")
  let st0 : State := { fp := input, fp_out := HEADER, buff := buff0, buff2 := [] }
  let st1 ← titlePhase st0
  let st2 ← geoLoop fuel st1
  -- lines 77-78
  let st3 : State := { st2 with fp_out := st2.fp_out ++ REGRULE, buff2 := [] }
  let st4 ← zoneLoop fuel st3
  -- lines 91-97
  let out5 := st4.fp_out ++ REGRULE ++ "GEOEND\n".toList
  let val ← readVals (st4.fp.length + 1) st4.fp []
  -- lines 99-109
  let out6 ← emitAssign val (out5 ++ RULE)
  pure (out6 ++ TRAILER, gotZones val.length (val.length / 2))

/-- What a run of the program leaves behind. -/
structure Result where
  /-- the argument of `exit`, or the value returned by `main` -/
  status : Int
  /-- the text written to standard output -/
  stdout : List Char
  /-- the text written to standard error -/
  stderr : List Char
  /-- the content of `output.inp` when the run opened it for writing -/
  output : Option (List Char)
deriving DecidableEq

/-- The function `main`.  `argv` is the argument vector (`argc` its length),
`files` gives the content of each path that `fopen` can read, `writable` says
whether `output.inp` can be opened for writing, and `buff0` is what `buff`
holds when `main` starts. -/
def main (fuel : Nat) (argv : List (List Char)) (files : List Char → Option (List Char))
    (writable : Bool) (buff0 : List Char) : Except Fault Result :=
  if argv.length = 1 then
    .ok { status := 0, stdout := USAGE, stderr := [], output := none }
  else
    match argv[1]? with
    | none => .error .undefined
    | some path =>
      match files path with
      | none =>
        .ok { status := -1, stdout := [],
              stderr := "ERROR: could not find file ".toList ++ path ++ "\n".toList,
              output := none }
      | some input =>
        if !writable then
          .ok { status := -1, stdout := [],
                stderr := "ERROR: could not open output file\n".toList, output := none }
        else
          match transcode fuel buff0 input with
          | .ok (out, so) => .ok { status := 0, stdout := so, stderr := [], output := some out }
          | .error e => .error e

/-! ## Definitions used to state the properties -/

/-- The values that successive calls `fscanf(fp, "%i", &a)` store until one
fails, with at most `fuel` calls. -/
def scanAll : Nat → List Char → List Int
  | 0, _ => []
  | fuel + 1, fp =>
    match fscanf_i fp with
    | none => []
    | some (a, fp1) => a :: scanAll fuel fp1

/-- The integers of a numeric tail: what the calls of `fscanf` in the loop of
line 94 parse from it. -/
def parsedInts (fp : List Char) : List Int :=
  scanAll (fp.length + 1) fp

/-- The card written by the loop of lines 105 to 109 at counter `j`. -/
def cardAt (val : List Int) (n : Nat) (j : Nat) : List Char :=
  assignmat (addInt (val.getD (j + n) 0) 2) (val.getD j 0)

/-- A line of text that fits the line buffer: the characters before its
newline, at most 98 of them, none of them a newline or NUL. -/
def TextLine (l : List Char) : Prop :=
  '\n' ∉ l ∧ NUL ∉ l ∧ l.length ≤ 98

instance (l : List Char) : Decidable (TextLine l) := by
  unfold TextLine
  infer_instance

/-- The input text of a list of lines: each followed by its newline. -/
def unlines (ls : List (List Char)) : List Char :=
  (ls.map (fun l => l ++ ['\n'])).flatten

/-- The text of a zone-list line (its newline included) with the patch of line
86 applied where position 8 lies within the line: position 8 is replaced by
`'5'` when the line has at least 9 characters and is a primary card. -/
def zonePatch (line : List Char) : List Char :=
  if 9 ≤ line.length ∧ isPrimary line = true then line.set 8 '5' else line

/-- A zone-list line on which the patch of line 86 does not touch the terminator
that `mygetline` wrote: the line with its newline does not have exactly 8
characters, or it is a continuation card. -/
def ZoneLineOk (l : List Char) : Prop :=
  l.length + 1 ≠ 8 ∨ isPrimary (l ++ ['\n']) = false

instance (l : List Char) : Decidable (ZoneLineOk l) := by
  unfold ZoneLineOk
  infer_instance

/-- The exit status of the process as its parent sees it: the low 8 bits of the
argument of `exit`. -/
def exitByte (status : Int) : Int :=
  status % 256

/-- A numeric token `t` with value `v`: a string without blanks that `%i` reads
whole, storing `v`, whenever a blank or the end of the input follows it. -/
def NumToken (t : List Char) (v : Int) : Prop :=
  t ≠ [] ∧ (∀ c ∈ t, isspace c = false) ∧
  ∀ rest : List Char, (∀ c ∈ rest.head?, isspace c = true) →
    fscanf_i (t ++ rest) = some (v, rest)

/-- The text of a numeric tail made of tokens, each followed by its separator. -/
def tailText (toks : List (List Char × Int × List Char)) : List Char :=
  (toks.map (fun p => p.1 ++ p.2.2)).flatten

/-- The line buffers that the first `fuel` calls `mygetline(fp, buff, len)` read
from a stream, up to the call that finds the stream exhausted. -/
def lineBuffers : Nat → List Char → List (List Char)
  | 0, _ => []
  | fuel + 1, fp =>
    if fp = [] then []
    else lineChunk 99 fp :: lineBuffers fuel (fp.drop (lineChunk 99 fp).length)

/-- The line buffers of a stream: what successive calls `mygetline(fp, buff, len)`
read until the stream is exhausted. -/
def lineBuffersOf (fp : List Char) : List (List Char) :=
  lineBuffers fp.length fp

/-- The integer that a sign (`-`, `+` or none) and a magnitude denote. -/
def signedVal (sg : List Char) (mag : Nat) : Int :=
  if sg = ['-'] then -(mag : Int) else (mag : Int)

/-! ## Lemmas -/

theorem set_length_append (pre t : List Char) (y x : Char) :
    (pre ++ y :: t).set pre.length x = pre ++ x :: t := by
  induction pre with
  | nil => rfl
  | cons a pre ih => simp [List.set, ih]

theorem mygetlineEnd_loop : ∀ (n : Nat) (fp pre t : List Char) (c : CVal),
    n + 1 ≤ t.length → c ≠ CVal.chr '\n' → c ≠ CVal.eof →
    mygetlineEnd (mygetlineLoop (pre.length + n + 1) fp (pre ++ t) pre.length c)
      = ⟨pre ++ lineChunk n fp ++ NUL :: t.drop ((lineChunk n fp).length + 1),
         fp.drop (lineChunk n fp).length,
         if fp.length < n ∧ '\n' ∉ fp then EOF else ((pre.length + (lineChunk n fp).length : Nat) : Int)⟩ := by
  intro n
  induction n with
  | zero =>
    intro fp pre t c ht hc1 hc2
    obtain ⟨y, t', rfl⟩ : ∃ y t', t = y :: t' := by
      cases t with
      | nil => simp at ht
      | cons y t' => exact ⟨y, t', rfl⟩
    cases fp <;>
      simp [mygetlineLoop, mygetlineEnd, lineChunk, hc1, hc2, set_length_append]
  | succ n ih =>
    intro fp pre t c ht hc1 hc2
    obtain ⟨y, t', rfl⟩ : ∃ y t', t = y :: t' := by
      cases t with
      | nil => simp at ht
      | cons y t' => exact ⟨y, t', rfl⟩
    cases fp with
    | nil =>
      simp [mygetlineLoop, mygetlineEnd, lineChunk, set_length_append]
    | cons x r =>
      by_cases hx : x = '\n'
      · subst hx
        obtain ⟨y2, t2, rfl⟩ : ∃ y t2, t' = y :: t2 := by
          cases t' with
          | nil => simp at ht
          | cons y t2 => exact ⟨y, t2, rfl⟩
        have h2 : (pre ++ '\n' :: y2 :: t2).set (pre.length + 1) NUL = pre ++ '\n' :: NUL :: t2 := by
          simp
        simp [mygetlineLoop, mygetlineEnd, lineChunk, set_length_append, h2]
      · have hstep : mygetlineLoop (pre.length + (n + 1) + 1) (x :: r) (pre ++ y :: t') pre.length c
            = mygetlineLoop ((pre ++ [x]).length + n + 1) r ((pre ++ [x]) ++ t') (pre ++ [x]).length (CVal.chr x) := by
          rw [mygetlineLoop]
          simp [hx, set_length_append]
          congr 1
          omega
        rw [hstep, ih r (pre ++ [x]) t' (CVal.chr x) (by simpa using ht) (by simpa using hx) (by simp)]
        simp [lineChunk, hx]
        have hx2 : ¬ '\n' = x := fun h => hx h.symm
        simp only [hx2, not_false_eq_true, true_and]
        split <;> omega

theorem scanSign_length (r : List Char) : (scanSign r).2.length ≤ r.length := by
  unfold scanSign
  split <;> simp

theorem scanBase_length (r : List Char) : (scanBase r).2.2.length ≤ r.length := by
  unfold scanBase
  split <;> simp <;> omega

theorem scanBase_zero (r : List Char) (h : (scanBase r).2.1 = true) :
    (scanBase r).2.2.length < r.length := by
  unfold scanBase at h ⊢
  split <;> simp_all <;> omega

theorem length_takeWhile_add_dropWhile (p : Char → Bool) (l : List Char) :
    (l.takeWhile p).length + (l.dropWhile p).length = l.length := by
  rw [← List.length_append, List.takeWhile_append_dropWhile]

theorem fscanf_i_length {fp fp1 : List Char} {a : Int} (h : fscanf_i fp = some (a, fp1)) :
    fp1.length < fp.length := by
  unfold fscanf_i at h
  have hsuf : (fp.dropWhile isspace).length ≤ fp.length :=
    (List.dropWhile_suffix isspace).length_le
  split at h
  · simp at h
  · rename_i c r heq
    rw [heq] at hsuf
    simp only at h
    have h1 := scanSign_length (c :: r)
    have h2 := scanBase_length (scanSign (c :: r)).2
    have h3 := length_takeWhile_add_dropWhile (isDigitOf (scanBase (scanSign (c :: r)).2).1)
      (scanBase (scanSign (c :: r)).2).2.2
    split at h
    · simp at h
    · rename_i hc
      simp only [Option.some.injEq, Prod.mk.injEq] at h
      rw [← h.2]
      simp only [Bool.and_eq_true, Bool.not_eq_true', not_and, Bool.not_eq_true] at hc
      by_cases hz : (scanBase (scanSign (c :: r)).2).2.1 = true
      · have := scanBase_zero _ hz
        omega
      · have hz' : (scanBase (scanSign (c :: r)).2).2.1 = false := by simpa using hz
        have hne := hc hz'
        have : 0 < (List.takeWhile (isDigitOf (scanBase (scanSign (c :: r)).2).1)
            (scanBase (scanSign (c :: r)).2).2.2).length := by
          rw [List.length_pos]
          intro hnil
          rw [hnil] at hne
          simp at hne
        omega

theorem scanAll_fuel : ∀ (fuel : Nat) (fp : List Char), fp.length < fuel →
    scanAll fuel fp = parsedInts fp := by
  intro fuel
  induction fuel using Nat.strong_induction_on with
  | _ fuel ih =>
    intro fp hlt
    unfold parsedInts
    cases fuel with
    | zero => omega
    | succ f =>
      rw [scanAll, scanAll]
      cases hs : fscanf_i fp with
      | none => rfl
      | some p =>
        obtain ⟨a, fp1⟩ := p
        have hl := fscanf_i_length hs
        simp only
        rw [ih f (by omega) fp1 (by omega), ih fp.length (by omega) fp1 hl]

theorem readVals_eq : ∀ (fuel : Nat) (fp : List Char) (val : List Int), fp.length < fuel →
    val.length + (parsedInts fp).length ≤ VAL_SIZE →
    readVals fuel fp val = .ok (val ++ parsedInts fp) := by
  intro fuel
  induction fuel with
  | zero => intro fp val h; omega
  | succ f ih =>
    intro fp val hlt hcap
    rw [readVals]
    have hp : parsedInts fp = scanAll (f + 1) fp := (scanAll_fuel _ _ hlt).symm
    rw [hp, scanAll] at hcap ⊢
    cases hs : fscanf_i fp with
    | none => simp
    | some p =>
      obtain ⟨a, fp1⟩ := p
      have hl := fscanf_i_length hs
      rw [hs] at hcap
      simp only [List.length_cons] at hcap
      simp only
      rw [if_pos (by omega)]
      rw [scanAll_fuel f fp1 (by omega)] at hcap ⊢
      rw [ih fp1 _ (by omega) (by simp; omega)]
      simp

theorem assignLoop_eq (val : List Int) (n : Nat) (hn : 2 * n ≤ val.length) :
    ∀ (k i : Nat) (out : List Char), i + k ≤ n →
      assignLoop val n k i out
        = .ok (out ++ ((List.range' i k).map (cardAt val n)).flatten) := by
  intro k
  induction k with
  | zero => intro i out _; simp [assignLoop]
  | succ k ih =>
    intro i out hik
    have h1 : i + n < val.length := by omega
    have h2 : i < val.length := by omega
    rw [assignLoop]
    rw [List.getElem?_eq_getElem h1, List.getElem?_eq_getElem h2]
    simp only
    rw [ih (i + 1) _ (by omega)]
    simp [List.range'_succ, cardAt, List.getD_eq_getElem?_getD, List.getElem?_eq_getElem h1, List.getElem?_eq_getElem h2]

theorem emitAssign_eq (val : List Int) (out : List Char) :
    emitAssign val out
      = .ok (out ++ ((List.range (val.length / 2)).map (cardAt val (val.length / 2))).flatten) := by
  unfold emitAssign
  rw [assignLoop_eq val _ (by omega) _ _ _ (by omega), List.range_eq_range']

theorem mygetline_eq (fp s : List Char) (lim : Nat) (hlim : 1 ≤ lim) (hs : lim ≤ s.length) :
    mygetline fp s lim
      = ⟨lineChunk (lim - 1) fp ++ NUL :: s.drop ((lineChunk (lim - 1) fp).length + 1),
         fp.drop (lineChunk (lim - 1) fp).length,
         if fp.length < lim - 1 ∧ '\n' ∉ fp then EOF
         else (((lineChunk (lim - 1) fp).length : Nat) : Int)⟩ := by
  have h := mygetlineEnd_loop (lim - 1) fp [] s CVal.unset (by omega) (by simp) (by simp)
  have hl : ([] : List Char).length + (lim - 1) + 1 = lim := by simp; omega
  rw [hl] at h
  simpa [mygetline] using h

theorem lineChunk_length_le : ∀ (n : Nat) (r : List Char), (lineChunk n r).length ≤ n := by
  intro n
  induction n with
  | zero => intro r; simp [lineChunk]
  | succ n ih =>
    intro r
    cases r with
    | nil => simp [lineChunk]
    | cons x r =>
      rw [lineChunk]
      split
      · simp
      · simpa using ih r

theorem lineChunk_eq_take : ∀ (n : Nat) (r : List Char),
    lineChunk n r = r.take (lineChunk n r).length := by
  intro n
  induction n with
  | zero => intro r; simp [lineChunk]
  | succ n ih =>
    intro r
    cases r with
    | nil => simp [lineChunk]
    | cons x r =>
      rw [lineChunk]
      split
      · simp
      · simpa using ih r

theorem lineChunk_append_drop (n : Nat) (r : List Char) :
    lineChunk n r ++ r.drop (lineChunk n r).length = r := by
  nth_rewrite 1 [lineChunk_eq_take n r]
  exact List.take_append_drop _ _

theorem lineChunk_newline : ∀ (n : Nat) (r : List Char) (p : Nat), p < n →
    r[p]? = some '\n' → (∀ q, q < p → r[q]? ≠ some '\n') → lineChunk n r = r.take (p + 1) := by
  intro n
  induction n with
  | zero => intro r p hp; omega
  | succ n ih =>
    intro r p hp hnl hfirst
    cases r with
    | nil => simp at hnl
    | cons x r =>
      rw [lineChunk]
      cases p with
      | zero =>
        simp at hnl
        simp [hnl]
      | succ p =>
        have hx : x ≠ '\n' := by
          have := hfirst 0 (by omega)
          simpa using this
        rw [if_neg hx]
        simp only [List.take_succ_cons, List.cons.injEq, true_and]
        apply ih r p (by omega)
        · simpa using hnl
        · intro q hq
          have := hfirst (q + 1) (by omega)
          simpa using this

theorem lineChunk_no_newline : ∀ (n : Nat) (r : List Char),
    (∀ p, p < n → r[p]? ≠ some '\n') → lineChunk n r = r.take n := by
  intro n
  induction n with
  | zero => intro r _; simp [lineChunk]
  | succ n ih =>
    intro r h
    cases r with
    | nil => simp [lineChunk]
    | cons x r =>
      have hx : x ≠ '\n' := by
        have := h 0 (by omega)
        simpa using this
      rw [lineChunk, if_neg hx]
      simp only [List.take_succ_cons, List.cons.injEq, true_and]
      apply ih
      intro p hp
      have := h (p + 1) (by omega)
      simpa using this

theorem lineChunk_getLast : ∀ (n : Nat) (r : List Char),
    '\n' ∈ lineChunk n r → (lineChunk n r).getLast? = some '\n' := by
  intro n
  induction n with
  | zero => intro r h; simp [lineChunk] at h
  | succ n ih =>
    intro r h
    cases r with
    | nil => simp [lineChunk] at h
    | cons x r =>
      rw [lineChunk] at h ⊢
      split
      · rename_i hx; simp [hx]
      · rename_i hx
        rw [if_neg hx] at h
        have hm : '\n' ∈ lineChunk n r := by
          rcases List.mem_cons.mp h with h1 | h1
          · exact absurd h1.symm hx
          · exact h1
        have := ih r hm
        rw [List.getLast?_cons]
        cases hc : (lineChunk n r).getLast? with
        | none => rw [hc] at this; simp at this
        | some v => rw [hc] at this; simpa using this

theorem lineChunk_line : ∀ (n : Nat) (l rest : List Char), '\n' ∉ l → l.length < n →
    lineChunk n (l ++ '\n' :: rest) = l ++ ['\n'] := by
  intro n
  induction n with
  | zero => intro l rest _ h; omega
  | succ n ih =>
    intro l rest hl hn
    cases l with
    | nil => simp [lineChunk]
    | cons x l =>
      have hx : x ≠ '\n' := by
        intro h; apply hl; simp [h]
      have hl2 : '\n' ∉ l := by
        intro h; apply hl; simp [h]
      simp only [List.cons_append, lineChunk, if_neg hx, List.cons.injEq, true_and]
      exact ih l rest hl2 (by simpa using hn)

/-! ## The bounded line reader -/

/-- C7: for every stream `r`, capacity `lim >= 2` and array `s` with room for `lim`
characters, `mygetline` stores a prefix `k` of `r` at the start of the array, directly
followed by the terminator, and leaves the rest of the array as it was; it
takes exactly `k` from the stream; `k` has at most `lim-1` characters; when the
first newline of `r` is among its first `lim-1` characters, `k` is the prefix
that ends with it; when there is no newline there, `k` is all of the first
`lim-1` characters of `r` and holds no newline; and a newline in `k` is its
last character. -/
theorem mygetline_stores_longest_line (r s : List Char) (lim : Nat) (hlim : 2 ≤ lim)
    (hs : lim ≤ s.length) :
    ∃ k : List Char,
      (mygetline r s lim).buf = k ++ NUL :: s.drop (k.length + 1) ∧
      r = k ++ (mygetline r s lim).fp ∧
      k.length ≤ lim - 1 ∧
      (∀ p, p < lim - 1 → r[p]? = some '\n' → (∀ q, q < p → r[q]? ≠ some '\n') →
        k = r.take (p + 1)) ∧
      ((∀ p, p < lim - 1 → r[p]? ≠ some '\n') → k = r.take (lim - 1) ∧ '\n' ∉ k) ∧
      ('\n' ∈ k → k.getLast? = some '\n') := by
  refine ⟨lineChunk (lim - 1) r, ?_, ?_, lineChunk_length_le _ _, ?_, ?_, lineChunk_getLast _ _⟩
  · rw [mygetline_eq r s lim (by omega) hs]
  · rw [mygetline_eq r s lim (by omega) hs]
    exact (lineChunk_append_drop _ _).symm
  · intro p hp hnl hfirst
    exact lineChunk_newline _ _ p hp hnl hfirst
  · intro h
    have hk := lineChunk_no_newline _ _ h
    refine ⟨hk, ?_⟩
    rw [hk]
    intro hmem
    obtain ⟨i, hi, hget⟩ := List.getElem_of_mem hmem
    have hi2 : i < lim - 1 := by
      simp only [List.length_take] at hi
      omega
    apply h i hi2
    rw [List.getElem_take] at hget
    rw [List.getElem?_eq_getElem, hget]

/-- Witness for C7: the stream `"abc\ndef"` read into an array of 100 characters. -/
theorem mygetline_stores_longest_line_witness :
    2 ≤ 100 ∧ 100 ≤ (List.replicate 100 'q').length ∧
    ∃ k : List Char,
      (mygetline "abc\ndef".toList (List.replicate 100 'q') 100).buf
        = k ++ NUL :: (List.replicate 100 'q').drop (k.length + 1) ∧
      "abc\ndef".toList = k ++ (mygetline "abc\ndef".toList (List.replicate 100 'q') 100).fp ∧
      k.length ≤ 100 - 1 ∧
      (∀ p, p < 100 - 1 → "abc\ndef".toList[p]? = some '\n' →
        (∀ q, q < p → "abc\ndef".toList[q]? ≠ some '\n') → k = "abc\ndef".toList.take (p + 1)) ∧
      ((∀ p, p < 100 - 1 → "abc\ndef".toList[p]? ≠ some '\n') →
        k = "abc\ndef".toList.take (100 - 1) ∧ '\n' ∉ k) ∧
      ('\n' ∈ k → k.getLast? = some '\n') :=
  ⟨by decide, by decide,
   mygetline_stores_longest_line "abc\ndef".toList (List.replicate 100 'q') 100 (by decide)
     (by decide)⟩

/-- C8, counterexample: on the stream `"abc"`, a last line with three characters
and no newline, `mygetline` stores the three characters and returns `EOF`, not
the count 3. -/
theorem mygetline_eof_with_characters :
    (mygetline "abc".toList (List.replicate 100 'q') 100).ret = EOF ∧
    (mygetline "abc".toList (List.replicate 100 'q') 100).buf.take 4 = "abc".toList ++ [NUL] ∧
    ¬ ((mygetline "abc".toList (List.replicate 100 'q') 100).ret = EOF → "abc".toList = []) ∧
    (mygetline "abc".toList (List.replicate 100 'q') 100).ret ≠ 3 := by
  decide

/-- C8, amended: for every stream `r`, capacity `lim >= 2` and array with room for
`lim` characters, `mygetline` returns `EOF` exactly when the stream ends before a
newline is read and before `lim-1` characters are stored, that is when `r`
holds fewer than `lim-1` characters and no newline, whether or not characters
were stored; in every other case it returns the number of characters it stored
before the terminator. -/
theorem mygetline_return_value (r s : List Char) (lim : Nat) (hlim : 2 ≤ lim)
    (hs : lim ≤ s.length) :
    ∃ k : List Char,
      (mygetline r s lim).buf = k ++ NUL :: s.drop (k.length + 1) ∧
      r = k ++ (mygetline r s lim).fp ∧
      ((r.length < lim - 1 ∧ '\n' ∉ r) → (mygetline r s lim).ret = EOF ∧ k = r) ∧
      (¬ (r.length < lim - 1 ∧ '\n' ∉ r) → (mygetline r s lim).ret = (k.length : Int)) := by
  refine ⟨lineChunk (lim - 1) r, ?_, ?_, ?_, ?_⟩
  · rw [mygetline_eq r s lim (by omega) hs]
  · rw [mygetline_eq r s lim (by omega) hs]
    exact (lineChunk_append_drop _ _).symm
  · intro h
    rw [mygetline_eq r s lim (by omega) hs]
    simp only [h, not_false_eq_true, and_self, if_true, true_and]
    have hk := lineChunk_no_newline (lim - 1) r (by
      intro p _ hp
      exact h.2 (List.getElem?_mem hp))
    rw [hk, List.take_of_length_le (by omega)]
  · intro h
    rw [mygetline_eq r s lim (by omega) hs]
    simp only [h, if_false]

/-- Witness for C8 amended: the stream `"abc"` read with capacity 100. -/
theorem mygetline_return_value_witness :
    2 ≤ 100 ∧ 100 ≤ (List.replicate 100 'q').length ∧
    ∃ k : List Char,
      (mygetline "abc".toList (List.replicate 100 'q') 100).buf
        = k ++ NUL :: (List.replicate 100 'q').drop (k.length + 1) ∧
      "abc".toList = k ++ (mygetline "abc".toList (List.replicate 100 'q') 100).fp ∧
      (("abc".toList.length < 100 - 1 ∧ '\n' ∉ "abc".toList) →
        (mygetline "abc".toList (List.replicate 100 'q') 100).ret = EOF ∧ k = "abc".toList) ∧
      (¬ ("abc".toList.length < 100 - 1 ∧ '\n' ∉ "abc".toList) →
        (mygetline "abc".toList (List.replicate 100 'q') 100).ret = (k.length : Int)) :=
  ⟨by decide, by decide,
   mygetline_return_value "abc".toList (List.replicate 100 'q') 100 (by decide) (by decide)⟩

/-! ## The assignment emitter -/

theorem addInt_two (m : Int) (h1 : -2147483648 ≤ m) (h2 : m ≤ 2147483645) :
    addInt m 2 = m + 2 := by
  unfold addInt wrapInt
  omega

theorem cards_spec (val : List Int) :
    ((List.range (val.length / 2)).map (cardAt val (val.length / 2))).length
      = val.length / 2 ∧
    ∀ i, i < val.length / 2 → ∃ m z,
      val[i + val.length / 2]? = some m ∧ val[i]? = some z ∧
      ((List.range (val.length / 2)).map (cardAt val (val.length / 2)))[i]?
        = some (assignmat (addInt m 2) z) := by
  refine ⟨by simp, ?_⟩
  intro i hi
  have h1 : i + val.length / 2 < val.length := by omega
  have h2 : i < val.length := by omega
  refine ⟨val[i + val.length / 2], val[i], List.getElem?_eq_getElem h1,
    List.getElem?_eq_getElem h2, ?_⟩
  rw [List.getElem?_map, List.getElem?_range hi]
  simp [cardAt, List.getElem?_eq_getElem h1, List.getElem?_eq_getElem h2]

theorem emitAssign_spec (val : List Int) (out : List Char) :
    ∃ cards : List (List Char),
      emitAssign val out = .ok (out ++ cards.flatten) ∧
      cards.length = val.length / 2 ∧
      ∀ i, i < val.length / 2 → ∃ m z,
        val[i + val.length / 2]? = some m ∧ val[i]? = some z ∧
        cards[i]? = some (assignmat (addInt m 2) z) :=
  ⟨(List.range (val.length / 2)).map (cardAt val (val.length / 2)),
    emitAssign_eq val out, (cards_spec val).1, (cards_spec val).2⟩

theorem readVals_parsed (fp : List Char) (h : (parsedInts fp).length ≤ 4096) :
    readVals (fp.length + 1) fp [] = .ok (parsedInts fp) := by
  have := readVals_eq (fp.length + 1) fp [] (by omega) (by simpa [VAL_SIZE] using h)
  simpa using this

/-- C2: for every array of `N` integers, with `n_zones = N / 2` by floor
division, the assignment emitter writes exactly `n_zones` cards and nothing
else, and for every `i` below `n_zones` the `i`-th card is the text of
`"ASSIGNMAT    %5i.0   %5i.0\n"` with first field `array[i + n_zones] + 2` and
second field `array[i]`; the sum is the `int` sum of line 108, which is the
integer sum for every `int` up to `INT_MAX - 2`; and when the array is what the
loop of line 94 parses from a numeric tail, with `N <= 4096`, that loop stores
exactly this array. -/
theorem emitAssign_writes_n_zones_cards (array : List Int) (out : List Char) :
    (∃ cards : List (List Char),
      emitAssign array out = .ok (out ++ cards.flatten) ∧
      cards.length = array.length / 2 ∧
      ∀ i, i < array.length / 2 → ∃ m z,
        array[i + array.length / 2]? = some m ∧ array[i]? = some z ∧
        cards[i]? = some ("ASSIGNMAT    ".toList ++ fmt_5i (addInt m 2) ++ ".0   ".toList
          ++ fmt_5i z ++ ".0\n".toList)) ∧
    (∀ m : Int, -2147483648 ≤ m → m ≤ 2147483645 → addInt m 2 = m + 2) ∧
    (∀ fp : List Char, parsedInts fp = array → array.length ≤ 4096 →
      readVals (fp.length + 1) fp [] = .ok array) := by
  refine ⟨emitAssign_spec array out, addInt_two, ?_⟩
  intro fp hfp hN
  subst hfp
  exact readVals_parsed fp hN

/-- Witness for C2: the array `[0, 2, 1, 5]`, parsed from the tail `" 0 2 1 5\n"`. -/
theorem emitAssign_writes_n_zones_cards_witness :
    (∃ cards : List (List Char),
      emitAssign [0, 2, 1, 5] [] = .ok ([] ++ cards.flatten) ∧
      cards.length = [(0 : Int), 2, 1, 5].length / 2 ∧
      ∀ i, i < [(0 : Int), 2, 1, 5].length / 2 → ∃ m z,
        [(0 : Int), 2, 1, 5][i + [(0 : Int), 2, 1, 5].length / 2]? = some m ∧
        [(0 : Int), 2, 1, 5][i]? = some z ∧
        cards[i]? = some ("ASSIGNMAT    ".toList ++ fmt_5i (addInt m 2) ++ ".0   ".toList
          ++ fmt_5i z ++ ".0\n".toList)) ∧
    (∀ m : Int, -2147483648 ≤ m → m ≤ 2147483645 → addInt m 2 = m + 2) ∧
    (∀ fp : List Char, parsedInts fp = [0, 2, 1, 5] → [(0 : Int), 2, 1, 5].length ≤ 4096 →
      readVals (fp.length + 1) fp [] = .ok [0, 2, 1, 5]) ∧
    parsedInts " 0 2 1 5\n".toList = [0, 2, 1, 5] :=
  ⟨(emitAssign_writes_n_zones_cards [0, 2, 1, 5] []).1,
   (emitAssign_writes_n_zones_cards [0, 2, 1, 5] []).2.1,
   (emitAssign_writes_n_zones_cards [0, 2, 1, 5] []).2.2, by decide⟩

/-- C9: for every numeric tail with an odd count `N = 2k+1` of integers, the
cards written are exactly the `k` cards written for its first `2k` integers,
and nothing fails: with `N <= 4096` the loop of line 94 stores the whole tail
and the emitter returns normally. -/
theorem odd_tail_last_integer_dropped (v : List Int) (x : Int) (k : Nat) (out : List Char)
    (hv : v.length = 2 * k) :
    (∃ cards : List (List Char), cards.length = k ∧
      emitAssign (v ++ [x]) out = .ok (out ++ cards.flatten) ∧
      emitAssign v out = .ok (out ++ cards.flatten)) ∧
    (∀ fp : List Char, parsedInts fp = v ++ [x] → 2 * k + 1 ≤ 4096 →
      readVals (fp.length + 1) fp [] = .ok (v ++ [x])) := by
  constructor
  · refine ⟨(List.range k).map (cardAt v k), by simp, ?_, ?_⟩
    · rw [emitAssign_eq]
      have hk : (v ++ [x]).length / 2 = k := by simp; omega
      rw [hk]
      congr 3
      apply List.map_congr_left
      intro j hj
      have hj' : j < k := List.mem_range.mp hj
      unfold cardAt
      rw [List.getD_append _ _ _ _ (by omega), List.getD_append _ _ _ _ (by omega)]
    · rw [emitAssign_eq]
      have hk : v.length / 2 = k := by omega
      rw [hk]
  · intro fp hfp hN
    rw [← hfp]
    apply readVals_parsed
    rw [hfp]
    simp
    omega

/-- Witness for C9: the tail `0 2 1 5 9`, of five integers. -/
theorem odd_tail_last_integer_dropped_witness :
    [(0 : Int), 2, 1, 5].length = 2 * 2 ∧
    ((∃ cards : List (List Char), cards.length = 2 ∧
      emitAssign ([0, 2, 1, 5] ++ [9]) [] = .ok ([] ++ cards.flatten) ∧
      emitAssign [0, 2, 1, 5] [] = .ok ([] ++ cards.flatten)) ∧
    (∀ fp : List Char, parsedInts fp = [0, 2, 1, 5] ++ [9] → 2 * 2 + 1 ≤ 4096 →
      readVals (fp.length + 1) fp [] = .ok ([0, 2, 1, 5] ++ [9]))) ∧
    parsedInts " 0 2 1 5 9\n".toList = [0, 2, 1, 5] ++ [9] :=
  ⟨by decide, odd_tail_last_integer_dropped [0, 2, 1, 5] 9 2 [] (by decide), by decide⟩

/-- C1, counterexample: the tail `0 2 1 5` is parsed as `[0, 2, 1, 5]` and yields the
cards `ASSIGNMAT        3.0       0.0` and `ASSIGNMAT        7.0       2.0`, not the
cards `ASSIGNMAT        2.0       1.0` and `ASSIGNMAT        4.0       5.0`: the value that
gets `+ 2` and comes first on card `i` is entry `i` of the second half. -/
theorem first_half_is_not_materials :
    readVals (" 0 2 1 5\n".toList.length + 1) " 0 2 1 5\n".toList [] = .ok [0, 2, 1, 5] ∧
    emitAssign [0, 2, 1, 5] []
      = .ok "ASSIGNMAT        3.0       0.0\nASSIGNMAT        7.0       2.0\n".toList ∧
    emitAssign ([0, 2] ++ [1, 5]) []
      ≠ .ok (assignmat (0 + 2) 1 ++ assignmat (2 + 2) 5) ∧
    assignmat (0 + 2) 1 ++ assignmat (2 + 2) 5
      = "ASSIGNMAT        2.0       1.0\nASSIGNMAT        4.0       5.0\n".toList := by
  decide

/-- C1, amended: for every `k` and every numeric tail of `2k` integers
`[z0..z(k-1), m0..m(k-1)]` (first half zones, second half materials), the
assignment emitter writes exactly `k` cards, in order `i = 0..k-1`, where card
`i` has first numeric field `m_i + 2` (the `int` sum of line 108, which is the
integer sum for every `int` up to `INT_MAX - 2`) and second numeric field `z_i`;
with `2k <= 4096` the loop of line 94 stores exactly this tail. -/
theorem second_half_is_materials (zs ms : List Int) (out : List Char)
    (hk : zs.length = ms.length) :
    (∃ cards : List (List Char),
      emitAssign (zs ++ ms) out = .ok (out ++ cards.flatten) ∧
      cards.length = ms.length ∧
      ∀ i, i < ms.length → ∃ m z, ms[i]? = some m ∧ zs[i]? = some z ∧
        cards[i]? = some (assignmat (addInt m 2) z)) ∧
    (∀ m : Int, -2147483648 ≤ m → m ≤ 2147483645 → addInt m 2 = m + 2) ∧
    (∀ fp : List Char, parsedInts fp = zs ++ ms → 2 * ms.length ≤ 4096 →
      readVals (fp.length + 1) fp [] = .ok (zs ++ ms)) := by
  refine ⟨?_, addInt_two, ?_⟩
  · obtain ⟨cards, h1, h2, h3⟩ := emitAssign_spec (zs ++ ms) out
    have hn : (zs ++ ms).length / 2 = ms.length := by simp; omega
    rw [hn] at h2 h3
    refine ⟨cards, h1, h2, ?_⟩
    intro i hi
    obtain ⟨m, z, hm, hz, hc⟩ := h3 i hi
    refine ⟨m, z, ?_, ?_, hc⟩
    · rw [List.getElem?_append_right (by omega)] at hm
      rw [← hm]
      congr 1
      omega
    · rw [List.getElem?_append_left (by omega)] at hz
      exact hz
  · intro fp hfp hN
    rw [← hfp]
    apply readVals_parsed
    rw [hfp]
    simp
    omega

/-- Witness for C1 amended: the tail `0 2 1 5`, zones `[0, 2]` and materials `[1, 5]`. -/
theorem second_half_is_materials_witness :
    [(0 : Int), 2].length = [(1 : Int), 5].length ∧
    ((∃ cards : List (List Char),
      emitAssign ([0, 2] ++ [1, 5]) [] = .ok ([] ++ cards.flatten) ∧
      cards.length = [(1 : Int), 5].length ∧
      ∀ i, i < [(1 : Int), 5].length → ∃ m z, [(1 : Int), 5][i]? = some m ∧
        [(0 : Int), 2][i]? = some z ∧
        cards[i]? = some (assignmat (addInt m 2) z)) ∧
    (∀ m : Int, -2147483648 ≤ m → m ≤ 2147483645 → addInt m 2 = m + 2) ∧
    (∀ fp : List Char, parsedInts fp = [0, 2] ++ [1, 5] → 2 * [(1 : Int), 5].length ≤ 4096 →
      readVals (fp.length + 1) fp [] = .ok ([0, 2] ++ [1, 5]))) ∧
    parsedInts " 0 2 1 5\n".toList = [0, 2] ++ [1, 5] :=
  ⟨by decide, second_half_is_materials [0, 2] [1, 5] [] (by decide), by decide⟩

/-! ## Strings in arrays, tokens, and single lines -/

theorem cstr_append_nul (a b : List Char) (h : NUL ∉ a) : cstr (a ++ NUL :: b) = a := by
  unfold cstr
  induction a with
  | nil => simp
  | cons x a ih =>
    have hx : x ≠ NUL := fun e => h (by simp [e])
    have ha : NUL ∉ a := fun e => h (by simp [e])
    simp [List.takeWhile_cons, hx, ih ha]

theorem cstrOf_append_nul (a b : List Char) (h : NUL ∉ a) :
    cstrOf (a ++ NUL :: b) = .ok a := by
  unfold cstrOf
  rw [if_pos (by simp), cstr_append_nul a b h]

theorem takeWhile_append_stop (p : Char → Bool) (l : List Char) (w : Char) (hw : p w = false) :
    (l ++ [w]).takeWhile p = l.takeWhile p := by
  induction l with
  | nil => simp [List.takeWhile_cons, hw]
  | cons x l ih =>
    simp only [List.cons_append, List.takeWhile_cons, ih]

theorem firstToken_append_space (l : List Char) (w : Char) (hw : isspace w = true) :
    firstToken (l ++ [w]) = firstToken l := by
  unfold firstToken
  induction l with
  | nil => simp [List.dropWhile_cons, hw]
  | cons x l ih =>
    by_cases hx : isspace x = true
    · simpa [List.dropWhile_cons, hx] using ih
    · have hx' : isspace x = false := by simpa using hx
      have := takeWhile_append_stop (fun c => !isspace c) (x :: l) w (by simp [hw])
      simp only [List.cons_append] at this
      simp only [List.cons_append, List.dropWhile_cons, hx']
      simp [this]

theorem firstToken_line (l : List Char) : firstToken (l ++ ['\n']) = firstToken l :=
  firstToken_append_space l '\n' (by decide)

theorem mygetline_line (l rest s : List Char) (hnl : '\n' ∉ l) (hlen : l.length ≤ 98)
    (hs : s.length = 100) :
    mygetline (l ++ '\n' :: rest) s len
      = ⟨(l ++ ['\n']) ++ NUL :: s.drop (l.length + 2), rest, ((l.length + 1 : Nat) : Int)⟩ := by
  have hk : lineChunk (len - 1) (l ++ '\n' :: rest) = l ++ ['\n'] :=
    lineChunk_line _ l rest hnl (by simp [len]; omega)
  rw [mygetline_eq _ s len (by decide) (by simp [len, hs]), hk]
  have hnot : ¬ ((l ++ '\n' :: rest).length < len - 1 ∧ '\n' ∉ l ++ '\n' :: rest) := by
    simp
  rw [if_neg hnot]
  simp

theorem blankTitle_eq (b : List Char) (h : 20 ≤ b.length) :
    blankTitle b = List.replicate 20 ' ' ++ b.drop 20 := by
  have key : ∀ n, n ≤ b.length →
      (List.range n).foldl (fun b i => b.set i ' ') b = List.replicate n ' ' ++ b.drop n := by
    intro n
    induction n with
    | zero => intro _; simp
    | succ n ih =>
      intro hn
      rw [List.range_succ, List.foldl_append, ih (by omega)]
      simp only [List.foldl_cons, List.foldl_nil]
      have hd : b.drop n = b[n] :: b.drop (n + 1) := by
        rw [List.drop_eq_getElem_cons (by omega)]
      rw [hd]
      have := set_length_append (List.replicate n ' ') (b.drop (n + 1)) b[n] ' '
      simp only [List.length_replicate] at this
      rw [this, List.replicate_succ']
      simp
  exact key 20 h

theorem textLine_nul_free (l : List Char) (hl : TextLine l) : NUL ∉ l ++ ['\n'] := by
  intro h
  rcases List.mem_append.mp h with h1 | h1
  · exact hl.2.1 h1
  · revert h1; decide

theorem sscanf_s_ok (a b buff2 : List Char) (h : NUL ∉ a) :
    sscanf_s (a ++ NUL :: b) buff2 = .ok ((firstToken a).getD buff2) := by
  unfold sscanf_s
  rw [cstrOf_append_nul a b h]
  cases hf : firstToken a <;> simp [bind, Except.bind, hf, pure, Except.pure]

theorem fprintf_s_ok (out a b : List Char) (h : NUL ∉ a) :
    fprintf_s out (a ++ NUL :: b) = .ok (out ++ a) := by
  unfold fprintf_s
  rw [cstrOf_append_nul a b h]
  rfl

theorem geoBody_line (st : State) (l rest : List Char) (hl : TextLine l)
    (hbuf : st.buff.length = 100) (hfp : st.fp = l ++ '\n' :: rest) :
    ∃ b, b.length = 100 ∧
      geoBody st = .ok ⟨rest, st.fp_out ++ (l ++ ['\n']), b, (firstToken l).getD st.buff2⟩ := by
  refine ⟨(l ++ ['\n']) ++ NUL :: st.buff.drop (l.length + 2), ?_, ?_⟩
  · have := hl.2.2
    simp [hbuf]; omega
  · unfold geoBody
    rw [hfp, mygetline_line l rest st.buff hl.1 hl.2.2 hbuf]
    dsimp only
    rw [sscanf_s_ok _ _ _ (textLine_nul_free l hl), fprintf_s_ok _ _ _ (textLine_nul_free l hl),
      firstToken_line]
    rfl

theorem isPrimary_append (line t : List Char) (h : 5 ≤ line.length) :
    isPrimary (line ++ t) = isPrimary line := by
  unfold isPrimary
  rw [List.getD_append _ _ _ 2 (by omega), List.getD_append _ _ _ 3 (by omega),
    List.getD_append _ _ _ 4 (by omega)]

theorem zoneBody_of_getline (st : State) (k t rest : List Char) (r : Int)
    (hget : mygetline st.fp st.buff len = ⟨k ++ NUL :: t, rest, r⟩)
    (hlen : (k ++ NUL :: t).length = 100) (hnul : NUL ∉ k)
    (hok : k.length ≠ 8 ∨ isPrimary k = false) :
    ∃ b, b.length = 100 ∧
      zoneBody st = .ok ⟨rest, st.fp_out ++ zonePatch k, b, (firstToken k).getD st.buff2⟩ := by
  have hlen' : k.length + 1 + t.length = 100 := by
    simp only [List.length_append, List.length_cons] at hlen
    omega
  unfold zoneBody
  rw [hget]
  dsimp only
  rw [sscanf_s_ok _ _ _ hnul]
  by_cases h9 : 9 ≤ k.length
  · -- position 8 lies within the line
    rw [isPrimary_append _ _ (by omega)]
    by_cases hp : isPrimary k = true
    · have hset : (k ++ NUL :: t).set 8 '5' = k.set 8 '5' ++ NUL :: t :=
        List.set_append_left 8 '5' (by omega)
      have hnul2 : NUL ∉ k.set 8 '5' := by
        intro h
        rcases List.mem_or_eq_of_mem_set h with h1 | h1
        · exact hnul h1
        · revert h1; decide
      refine ⟨k.set 8 '5' ++ NUL :: t, ?_, ?_⟩
      · simp; omega
      · rw [if_pos hp, hset, fprintf_s_ok _ _ _ hnul2]
        simp only [zonePatch]
        rw [if_pos ⟨h9, hp⟩]
        rfl
    · refine ⟨k ++ NUL :: t, hlen, ?_⟩
      rw [if_neg hp, fprintf_s_ok _ _ _ hnul]
      simp only [zonePatch]
      rw [if_neg (fun h => hp h.2)]
      rfl
  · have hz : zonePatch k = k := by
      unfold zonePatch
      rw [if_neg (fun h => h9 h.1)]
    rw [hz]
    by_cases h8 : k.length = 8
    · -- position 8 holds the terminator, and the line is a continuation card
      have hnp : isPrimary k = false := by
        rcases hok with h | h
        · exact absurd h8 h
        · exact h
      refine ⟨k ++ NUL :: t, hlen, ?_⟩
      rw [isPrimary_append _ _ (by omega), hnp]
      simp only [Bool.false_eq_true, if_false]
      rw [fprintf_s_ok _ _ _ hnul]
      rfl
    · -- position 8 lies beyond the terminator
      have hset : (k ++ NUL :: t).set 8 '5' = k ++ NUL :: t.set (8 - k.length - 1) '5' := by
        rw [List.set_append_right 8 '5' (by omega)]
        obtain ⟨j, hj⟩ : ∃ j, 8 - k.length = j + 1 := ⟨8 - k.length - 1, by omega⟩
        rw [hj]
        simp
      by_cases hp : isPrimary (k ++ NUL :: t) = true
      · refine ⟨k ++ NUL :: t.set (8 - k.length - 1) '5', ?_, ?_⟩
        · simp; omega
        · rw [if_pos hp, hset, fprintf_s_ok _ _ _ hnul]
          rfl
      · refine ⟨k ++ NUL :: t, hlen, ?_⟩
        rw [if_neg hp, fprintf_s_ok _ _ _ hnul]
        rfl

theorem zoneBody_line (st : State) (l rest : List Char) (hl : TextLine l)
    (hbuf : st.buff.length = 100) (hfp : st.fp = l ++ '\n' :: rest)
    (hok : l.length + 1 ≠ 8 ∨ isPrimary (l ++ ['\n']) = false) :
    ∃ b, b.length = 100 ∧
      zoneBody st
        = .ok ⟨rest, st.fp_out ++ zonePatch (l ++ ['\n']), b, (firstToken l).getD st.buff2⟩ := by
  have hlen := hl.2.2
  have h := zoneBody_of_getline st (l ++ ['\n']) (st.buff.drop (l.length + 2)) rest _
    (by rw [hfp]; exact mygetline_line l rest st.buff hl.1 hl.2.2 hbuf)
    (by simp [hbuf]; omega) (textLine_nul_free l hl) (by simpa using hok)
  rw [firstToken_line] at h
  exact h

theorem mygetline_chunk (fp s : List Char) (hs : s.length = 100) :
    mygetline fp s len
      = ⟨lineChunk 99 fp ++ NUL :: s.drop ((lineChunk 99 fp).length + 1),
         fp.drop (lineChunk 99 fp).length,
         if fp.length < 99 ∧ '\n' ∉ fp then EOF else (((lineChunk 99 fp).length : Nat) : Int)⟩ :=
  mygetline_eq fp s len (by decide) (by simp [len, hs])

theorem chunk_of_split (fp s k : List Char) (hs : s.length = 100)
    (hk : fp = k ++ (mygetline fp s len).fp) : k = lineChunk 99 fp := by
  rw [mygetline_chunk fp s hs] at hk
  dsimp only at hk
  have h2 := lineChunk_append_drop 99 fp
  have h3 : k ++ fp.drop (lineChunk 99 fp).length
      = lineChunk 99 fp ++ fp.drop (lineChunk 99 fp).length := by
    rw [← hk, h2]
  exact List.append_cancel_right h3

theorem zoneBody_chunk (st : State) (k : List Char) (hbuf : st.buff.length = 100)
    (hk : st.fp = k ++ (mygetline st.fp st.buff len).fp) (hnul : NUL ∉ k)
    (hok : k.length ≠ 8 ∨ isPrimary k = false) :
    ∃ b, b.length = 100 ∧
      zoneBody st = .ok ⟨(mygetline st.fp st.buff len).fp, st.fp_out ++ zonePatch k, b,
        (firstToken k).getD st.buff2⟩ := by
  have hkc := chunk_of_split st.fp st.buff k hbuf hk
  have hle := lineChunk_length_le 99 st.fp
  have hget := mygetline_chunk st.fp st.buff hbuf
  rw [← hkc] at hget hle
  have h := zoneBody_of_getline st k _ _ _ hget (by simp [hbuf]; omega) hnul hok
  rw [hget]
  exact h

/-! ## The copying loops -/

theorem whileLoop_stop (body : State → Except Fault State) (fuel : Nat) (st : State)
    (h : st.buff2 = END) : whileLoop notEnd body fuel st = .ok st := by
  have hc : notEnd st = false := by simp [notEnd, h]
  cases fuel <;> simp [whileLoop, hc]

theorem whileLoop_step (body : State → Except Fault State) (fuel : Nat) (st st1 : State)
    (h : st.buff2 ≠ END) (hb : body st = .ok st1) :
    whileLoop notEnd body (fuel + 1) st = whileLoop notEnd body fuel st1 := by
  have hc : notEnd st = true := by simp [notEnd, h]
  simp [whileLoop, hc, hb]

theorem copyLoop_lines (body : State → Except Fault State) (f : List Char → List Char)
    (P : List Char → Prop)
    (hbody : ∀ (st : State) (l rest : List Char), TextLine l → P l → st.buff.length = 100 →
      st.fp = l ++ '\n' :: rest →
      ∃ b, b.length = 100 ∧
        body st = .ok ⟨rest, st.fp_out ++ f (l ++ ['\n']), b, (firstToken l).getD st.buff2⟩) :
    ∀ (pre : List (List Char)) (e rest : List Char) (st : State) (fuel : Nat),
      (∀ l ∈ pre, TextLine l ∧ P l ∧ firstToken l ≠ some END) →
      TextLine e → P e → firstToken e = some END →
      st.buff.length = 100 → st.buff2 ≠ END →
      st.fp = unlines pre ++ (e ++ '\n' :: rest) →
      pre.length + 1 ≤ fuel →
      ∃ b, b.length = 100 ∧
        whileLoop notEnd body fuel st
          = .ok ⟨rest, st.fp_out ++ (pre.map (fun l => f (l ++ ['\n']))).flatten
              ++ f (e ++ ['\n']), b, END⟩ := by
  intro pre
  induction pre with
  | nil =>
    intro e rest st fuel _ he hPe hend hbuf hb2 hfp hfuel
    obtain ⟨n, rfl⟩ : ∃ n, fuel = n + 1 := ⟨fuel - 1, by simp at hfuel; omega⟩
    obtain ⟨b, hb, hrun⟩ := hbody st e rest he hPe hbuf (by simpa [unlines] using hfp)
    refine ⟨b, hb, ?_⟩
    rw [whileLoop_step body n st _ hb2 hrun, whileLoop_stop body n _ (by simp [hend])]
    simp [hend]
  | cons l pre ih =>
    intro e rest st fuel hpre he hPe hend hbuf hb2 hfp hfuel
    obtain ⟨n, rfl⟩ : ∃ n, fuel = n + 1 := ⟨fuel - 1, by simp at hfuel; omega⟩
    obtain ⟨hl, hPl, htok⟩ := hpre l (by simp)
    have hfp' : st.fp = l ++ '\n' :: (unlines pre ++ (e ++ '\n' :: rest)) := by
      rw [hfp]; simp [unlines]
    obtain ⟨b, hb, hrun⟩ := hbody st l _ hl hPl hbuf hfp'
    have hb2' : (firstToken l).getD st.buff2 ≠ END := by
      cases ht : firstToken l with
      | none => simpa using hb2
      | some t =>
        intro h
        apply htok
        rw [ht]
        simpa using h
    obtain ⟨b', hb', hrun'⟩ := ih e rest
      ⟨unlines pre ++ (e ++ '\n' :: rest), st.fp_out ++ f (l ++ ['\n']), b,
        (firstToken l).getD st.buff2⟩ n
      (fun l' hl' => hpre l' (by simp [hl'])) he hPe hend hb hb2' rfl
      (by simp at hfuel; omega)
    refine ⟨b', hb', ?_⟩
    rw [whileLoop_step body n st _ hb2 hrun, hrun']
    simp

theorem geoLoop_lines (pre : List (List Char)) (e rest : List Char) (st : State) (fuel : Nat)
    (hpre : ∀ l ∈ pre, TextLine l ∧ firstToken l ≠ some END)
    (he : TextLine e) (hend : firstToken e = some END)
    (hbuf : st.buff.length = 100) (hb2 : st.buff2 ≠ END)
    (hfp : st.fp = unlines pre ++ (e ++ '\n' :: rest)) (hfuel : pre.length + 1 ≤ fuel) :
    ∃ b, b.length = 100 ∧
      geoLoop fuel st = .ok ⟨rest, st.fp_out ++ unlines pre ++ (e ++ ['\n']), b, END⟩ := by
  have h := copyLoop_lines geoBody (fun x => x) (fun _ => True)
    (fun st l rest hl _ hb hf => geoBody_line st l rest hl hb hf)
    pre e rest st fuel (fun l hl => ⟨(hpre l hl).1, trivial, (hpre l hl).2⟩) he trivial hend
    hbuf hb2 hfp hfuel
  simpa [geoLoop, unlines] using h

theorem zoneLoop_lines (pre : List (List Char)) (e rest : List Char) (st : State) (fuel : Nat)
    (hpre : ∀ l ∈ pre, TextLine l ∧ ZoneLineOk l ∧ firstToken l ≠ some END)
    (he : TextLine e) (hez : ZoneLineOk e) (hend : firstToken e = some END)
    (hbuf : st.buff.length = 100) (hb2 : st.buff2 ≠ END)
    (hfp : st.fp = unlines pre ++ (e ++ '\n' :: rest)) (hfuel : pre.length + 1 ≤ fuel) :
    ∃ b, b.length = 100 ∧
      zoneLoop fuel st
        = .ok ⟨rest, st.fp_out ++ (pre.map (fun l => zonePatch (l ++ ['\n']))).flatten
            ++ zonePatch (e ++ ['\n']), b, END⟩ :=
  copyLoop_lines zoneBody zonePatch ZoneLineOk
    (fun st l rest hl hz hb hf => zoneBody_line st l rest hl hb hf hz)
    pre e rest st fuel hpre he hez hend hbuf hb2 hfp hfuel

/-! ## The title line -/

theorem titlePhase_line (st : State) (title rest : List Char) (hl : TextLine title)
    (h20 : 20 ≤ title.length) (hbuf : st.buff.length = 100)
    (hfp : st.fp = title ++ '\n' :: rest) :
    ∃ b, b.length = 100 ∧
      titlePhase st
        = .ok ⟨rest, st.fp_out ++ (List.replicate 20 ' ' ++ (title ++ ['\n']).drop 20), b,
            st.buff2⟩ := by
  have hlen := hl.2.2
  have hnul := textLine_nul_free title hl
  have hw : NUL ∉ List.replicate 20 ' ' ++ (title ++ ['\n']).drop 20 := by
    intro h
    rcases List.mem_append.mp h with h1 | h1
    · have := List.eq_of_mem_replicate h1
      revert this; decide
    · exact hnul (List.mem_of_mem_drop h1)
  have hb : blankTitle ((title ++ ['\n']) ++ NUL :: st.buff.drop (title.length + 2))
      = (List.replicate 20 ' ' ++ (title ++ ['\n']).drop 20)
          ++ NUL :: st.buff.drop (title.length + 2) := by
    rw [blankTitle_eq _ (by simp; omega), List.drop_append_of_le_length (by simp; omega)]
    simp
  refine ⟨(List.replicate 20 ' ' ++ (title ++ ['\n']).drop 20)
      ++ NUL :: st.buff.drop (title.length + 2), ?_, ?_⟩
  · simp [hbuf]; omega
  · unfold titlePhase
    rw [hfp, mygetline_line title rest st.buff hl.1 hl.2.2 hbuf]
    dsimp only
    rw [hb, fprintf_s_ok _ _ _ hw]
    rfl

/-- C5: for a title line of at least 20 and at most 98 characters of text followed
by a newline, the title written by `main` has a space at each of its first 20
positions, equals the original line (newline included) at every position from
20 onward, and has the same length as the original line; the input is then
read up to the end of that line. -/
theorem title_first_20_blank_rest_kept (st : State) (title rest : List Char)
    (hl : TextLine title) (h20 : 20 ≤ title.length) (hbuf : st.buff.length = 100)
    (hfp : st.fp = title ++ '\n' :: rest) :
    ∃ (st1 : State) (w : List Char),
      titlePhase st = .ok st1 ∧ st1.fp = rest ∧ st1.fp_out = st.fp_out ++ w ∧
      w.length = (title ++ ['\n']).length ∧
      (∀ i, i < 20 → w[i]? = some ' ') ∧
      (∀ i, 20 ≤ i → w[i]? = (title ++ ['\n'])[i]?) := by
  obtain ⟨b, _, hrun⟩ := titlePhase_line st title rest hl h20 hbuf hfp
  refine ⟨_, List.replicate 20 ' ' ++ (title ++ ['\n']).drop 20, hrun, rfl, rfl, ?_, ?_, ?_⟩
  · rw [List.length_append, List.length_replicate, List.length_drop]
    simp only [List.length_append, List.length_singleton]
    omega
  · intro i hi
    rw [List.getElem?_append_left (by rw [List.length_replicate]; exact hi),
      List.getElem?_replicate, if_pos hi]
  · intro i hi
    rw [List.getElem?_append_right (by rw [List.length_replicate]; exact hi),
      List.length_replicate, List.getElem?_drop, Nat.add_sub_cancel' hi]

/-- Witness for C5: the title `TESTGEO1` followed by 20 characters. -/
theorem title_first_20_blank_rest_kept_witness :
    TextLine "TESTGEO1 a title of 28 chars".toList ∧
    20 ≤ "TESTGEO1 a title of 28 chars".toList.length ∧
    (List.replicate 100 'q').length = 100 ∧
    ∃ (st1 : State) (w : List Char),
      titlePhase ⟨"TESTGEO1 a title of 28 chars".toList ++ '\n' :: "END\n".toList, HEADER,
        List.replicate 100 'q', []⟩ = .ok st1 ∧
      st1.fp = "END\n".toList ∧ st1.fp_out = HEADER ++ w ∧
      w.length = ("TESTGEO1 a title of 28 chars".toList ++ ['\n']).length ∧
      (∀ i, i < 20 → w[i]? = some ' ') ∧
      (∀ i, 20 ≤ i → w[i]? = ("TESTGEO1 a title of 28 chars".toList ++ ['\n'])[i]?) :=
  ⟨by decide, by decide, by decide,
   title_first_20_blank_rest_kept
     ⟨"TESTGEO1 a title of 28 chars".toList ++ '\n' :: "END\n".toList, HEADER,
       List.replicate 100 'q', []⟩
     "TESTGEO1 a title of 28 chars".toList "END\n".toList (by decide) (by decide) (by decide) rfl⟩

set_option maxRecDepth 20000 in
/-- C6, the code at the failing input: for the title line `"AB\n"`, shorter than 20
characters, the blanking loop overwrites the newline and the terminator that
`mygetline` stored, and what is written is 20 spaces followed by whatever `buff`
held from position 20 on before the call: nothing when that was NUL (the
output then has no newline), the old characters up to the next NUL when there
is one, and a read past the end of the array when there is none.  In the
output of `main` for the input file `"AB\nEND\nEND\n"` the 20 spaces of the title
are followed directly by the first line of the geometry body. -/
theorem short_title_loses_newline :
    titlePhase ⟨"AB\nEND\nEND\n".toList, [], List.replicate 100 NUL, []⟩
      = .ok ⟨"END\nEND\n".toList, List.replicate 20 ' ',
          List.replicate 20 ' ' ++ List.replicate 80 NUL, []⟩ ∧
    titlePhase ⟨"AB\nEND\nEND\n".toList, [],
        List.replicate 20 NUL ++ "junk".toList ++ List.replicate 76 NUL, []⟩
      = .ok ⟨"END\nEND\n".toList, List.replicate 20 ' ' ++ "junk".toList,
          List.replicate 20 ' ' ++ "junk".toList ++ List.replicate 76 NUL, []⟩ ∧
    titlePhase ⟨"AB\nEND\nEND\n".toList, [], List.replicate 100 'q', []⟩ = .error .undefined ∧
    ((main 2 ["shield2fluka".toList, "pasin.dat".toList]
        (fun _ => some "AB\nEND\nEND\n".toList) true
        (List.replicate 100 NUL)).toOption.bind (fun r => r.output)).map
          (fun o => (o.drop HEADER.length).take 24)
      = some "                    END\n".toList ∧
    main 2 ["shield2fluka".toList, "pasin.dat".toList]
        (fun _ => some "AB\nEND\nEND\n".toList) true (List.replicate 100 'q')
      = .error .undefined := by
  decide

/-! ## The zone list, line by line -/

theorem isPrimary_false_iff (s : List Char) :
    isPrimary s = false ↔
      s[2]? = some ' ' ∧ s[3]? = some ' ' ∧ s[4]? = some ' ' := by
  have key : ∀ i, (s.getD i NUL == ' ') = true ↔ s[i]? = some ' ' := by
    intro i
    rw [List.getD_eq_getElem?_getD]
    cases h : s[i]? with
    | none =>
      have : (NUL == ' ') = false := by decide
      simp [this]
    | some c => simp
  unfold isPrimary
  rw [Bool.not_eq_false', Bool.and_eq_true, Bool.and_eq_true, key, key, key, and_assoc]

/-- C3, counterexample: the zone-list line `"  Z01\n"` has a non-blank character at
columns 2, 3 and 4, and is written unchanged: the written line has no column
8, so that column is not `'5'`; the store of line 86 goes to a position of `buff`
beyond the terminator.  The same holds for the line `"END\n"` that closes the
zone list. -/
theorem short_primary_line_not_patched :
    "  Z01\n".toList[2]? = some 'Z' ∧
    zoneBody ⟨"  Z01\nEND\n".toList, [], List.replicate 100 'q', []⟩
      = .ok ⟨"END\n".toList, "  Z01\n".toList,
          "  Z01\n".toList ++ [NUL, 'q', '5'] ++ List.replicate 91 'q', "Z01".toList⟩ ∧
    "  Z01\n".toList[8]? ≠ some '5' ∧
    "END\n".toList[2]? = some 'D' ∧
    zoneBody ⟨"END\n0 2 1 5\n".toList, [], List.replicate 100 'q', []⟩
      = .ok ⟨"0 2 1 5\n".toList, "END\n".toList,
          "END\n".toList ++ [NUL, 'q', 'q', 'q', '5'] ++ List.replicate 91 'q', END⟩ ∧
    "END\n".toList[8]? ≠ some '5' := by
  decide

/-- C3, amended: for every zone-list line `k` read by the zone-list loop (the
characters, none of them NUL, that the call of `mygetline` in one iteration takes
from the input; for a line of text of at most 98 characters this is the line
with its newline): if `k` has at least 9 characters and its columns 2, 3, 4 are
not all blank, the line written has the same length, has `'5'` at column 8 and
equals `k` at every other column; if columns 2, 3, 4 are all blank, or `k` has
fewer than 8 characters, the line written equals `k`. -/
theorem zone_line_patched_at_column_8 (st : State) (k : List Char)
    (hbuf : st.buff.length = 100)
    (hk : st.fp = k ++ (mygetline st.fp st.buff len).fp) (hnul : NUL ∉ k) :
    (9 ≤ k.length → ¬ (k[2]? = some ' ' ∧ k[3]? = some ' ' ∧ k[4]? = some ' ') →
      ∃ (st1 : State) (w : List Char),
        zoneBody st = .ok st1 ∧ st.fp = k ++ st1.fp ∧ st1.fp_out = st.fp_out ++ w ∧
        w.length = k.length ∧ w[8]? = some '5' ∧ ∀ i, i ≠ 8 → w[i]? = k[i]?) ∧
    (((k[2]? = some ' ' ∧ k[3]? = some ' ' ∧ k[4]? = some ' ') ∨ k.length < 8) →
      ∃ st1 : State,
        zoneBody st = .ok st1 ∧ st.fp = k ++ st1.fp ∧ st1.fp_out = st.fp_out ++ k) ∧
    (∀ l rest : List Char, TextLine l → st.fp = l ++ '\n' :: rest → k = l ++ ['\n']) := by
  refine ⟨?_, ?_, ?_⟩
  · intro h9 hprim
    have hp : isPrimary k = true := by
      rw [← Bool.not_eq_false]
      exact fun h => hprim ((isPrimary_false_iff _).mp h)
    obtain ⟨b, _, hrun⟩ := zoneBody_chunk st k hbuf hk hnul (Or.inl (by omega))
    have hz : zonePatch k = k.set 8 '5' := by
      unfold zonePatch
      rw [if_pos ⟨h9, hp⟩]
    rw [hz] at hrun
    refine ⟨_, k.set 8 '5', hrun, hk, rfl, by simp, ?_, ?_⟩
    · rw [List.getElem?_set_self (by omega)]
    · intro i hi
      rw [List.getElem?_set_ne (fun h => hi h.symm)]
  · intro h
    have hok : k.length ≠ 8 ∨ isPrimary k = false := by
      rcases h with h | h
      · exact Or.inr ((isPrimary_false_iff _).mpr h)
      · exact Or.inl (by omega)
    obtain ⟨b, _, hrun⟩ := zoneBody_chunk st k hbuf hk hnul hok
    have hz : zonePatch k = k := by
      unfold zonePatch
      rcases h with h | h
      · have hnp : isPrimary k = false := (isPrimary_false_iff _).mpr h
        rw [if_neg (fun hc => by
          rw [hnp] at hc
          exact Bool.false_ne_true hc.2)]
      · rw [if_neg (fun hc => by omega)]
    rw [hz] at hrun
    exact ⟨_, hrun, hk, rfl⟩
  · intro l rest hl hfp
    rw [chunk_of_split st.fp st.buff k hbuf hk, hfp]
    exact lineChunk_line 99 l rest hl.1 (by have := hl.2.2; omega)

/-- Witness for C3 amended: the primary line `"  Z01    1   +1\n"`. -/
theorem zone_line_patched_at_column_8_witness :
    (List.replicate 100 'q').length = 100 ∧
    "  Z01    1   +1\nEND\n".toList = "  Z01    1   +1\n".toList
      ++ (mygetline "  Z01    1   +1\nEND\n".toList (List.replicate 100 'q') len).fp ∧
    NUL ∉ "  Z01    1   +1\n".toList ∧
    ((9 ≤ "  Z01    1   +1\n".toList.length →
      ¬ ("  Z01    1   +1\n".toList[2]? = some ' ' ∧ "  Z01    1   +1\n".toList[3]? = some ' ' ∧
          "  Z01    1   +1\n".toList[4]? = some ' ') →
      ∃ (st1 : State) (w : List Char),
        zoneBody ⟨"  Z01    1   +1\nEND\n".toList, [], List.replicate 100 'q', []⟩ = .ok st1 ∧
        "  Z01    1   +1\nEND\n".toList = "  Z01    1   +1\n".toList ++ st1.fp ∧
        st1.fp_out = [] ++ w ∧
        w.length = "  Z01    1   +1\n".toList.length ∧ w[8]? = some '5' ∧
        ∀ i, i ≠ 8 → w[i]? = "  Z01    1   +1\n".toList[i]?) ∧
    ((("  Z01    1   +1\n".toList[2]? = some ' ' ∧ "  Z01    1   +1\n".toList[3]? = some ' ' ∧
          "  Z01    1   +1\n".toList[4]? = some ' ') ∨ "  Z01    1   +1\n".toList.length < 8) →
      ∃ st1 : State,
        zoneBody ⟨"  Z01    1   +1\nEND\n".toList, [], List.replicate 100 'q', []⟩ = .ok st1 ∧
        "  Z01    1   +1\nEND\n".toList = "  Z01    1   +1\n".toList ++ st1.fp ∧
        st1.fp_out = [] ++ "  Z01    1   +1\n".toList) ∧
    (∀ l rest : List Char, TextLine l → "  Z01    1   +1\nEND\n".toList = l ++ '\n' :: rest →
      "  Z01    1   +1\n".toList = l ++ ['\n'])) :=
  ⟨by decide, by decide, by decide,
   zone_line_patched_at_column_8
     ⟨"  Z01    1   +1\nEND\n".toList, [], List.replicate 100 'q', []⟩
     "  Z01    1   +1\n".toList (by decide) (by decide) (by decide)⟩

/-! ## The geometry body -/

theorem firstToken_skip (ws s : List Char) (hws : ∀ c ∈ ws, isspace c = true) :
    firstToken (ws ++ s) = firstToken s := by
  induction ws with
  | nil => rfl
  | cons x ws ih =>
    have hx : isspace x = true := hws x (by simp)
    have := ih (fun c hc => hws c (by simp [hc]))
    unfold firstToken at this ⊢
    simpa [List.dropWhile_cons, hx] using this

theorem firstToken_token (t r : List Char) (ht : t ≠ [])
    (hns : ∀ c ∈ t, isspace c = false)
    (hr : r = [] ∨ ∃ w r1, r = w :: r1 ∧ isspace w = true) :
    firstToken (t ++ r) = some t := by
  have htake : (t ++ r).takeWhile (fun c => !isspace c) = t := by
    clear ht
    induction t with
    | nil =>
      rcases hr with rfl | ⟨w, r1, rfl, hw⟩
      · rfl
      · simp [List.takeWhile_cons, hw]
    | cons x t ih =>
      have hx : isspace x = false := hns x (by simp)
      simp [List.takeWhile_cons, hx, ih (fun c hc => hns c (by simp [hc]))]
  obtain ⟨x, t1, rfl⟩ : ∃ x t1, t = x :: t1 := by
    cases t with
    | nil => exact absurd rfl ht
    | cons x t1 => exact ⟨x, t1, rfl⟩
  have hx : isspace x = false := hns x (by simp)
  unfold firstToken
  have hd : ((x :: t1) ++ r).dropWhile isspace = (x :: t1) ++ r := by
    simp [List.dropWhile_cons, hx]
  rw [hd, htake]
  simp

/-- C4: when the geometry body is a sequence of lines of text, each followed by its
newline and at most 98 characters long before it, and `e` is the first of them
whose first whitespace-delimited token is exactly `END`, the geometry loop,
given fuel for its iterations, writes every line up to and including `e`
unchanged and in order, stops there, and leaves the input just after `e`.  The
test looks at the first token only: blanks before it are skipped, and the
token ends at the first blank after it, so `X END` and `ENDX` do not stop the
loop and `  END` does. -/
theorem geoLoop_copies_through_first_END (pre : List (List Char)) (e rest : List Char)
    (st : State) (fuel : Nat)
    (hpre : ∀ l ∈ pre, TextLine l ∧ firstToken l ≠ some END)
    (he : TextLine e) (hend : firstToken e = some END)
    (hbuf : st.buff.length = 100) (hb2 : st.buff2 ≠ END)
    (hfp : st.fp = unlines pre ++ (e ++ '\n' :: rest)) (hfuel : pre.length + 1 ≤ fuel) :
    (∃ st1 : State, geoLoop fuel st = .ok st1 ∧ st1.fp = rest ∧
      st1.fp_out = st.fp_out ++ unlines pre ++ (e ++ ['\n'])) ∧
    (∀ ws s : List Char, (∀ c ∈ ws, isspace c = true) →
      firstToken (ws ++ s) = firstToken s) ∧
    (∀ t r : List Char, t ≠ [] → (∀ c ∈ t, isspace c = false) →
      (r = [] ∨ ∃ w r1, r = w :: r1 ∧ isspace w = true) → firstToken (t ++ r) = some t) ∧
    firstToken "X END".toList ≠ some END ∧ firstToken "ENDX".toList ≠ some END ∧
    firstToken "  END".toList = some END := by
  refine ⟨?_, firstToken_skip, firstToken_token, by decide, by decide, by decide⟩
  obtain ⟨b, _, hrun⟩ := geoLoop_lines pre e rest st fuel hpre he hend hbuf hb2 hfp hfuel
  exact ⟨_, hrun, rfl, rfl⟩

/-- Witness for C4: a geometry body of three lines before the line `  END`. -/
theorem geoLoop_copies_through_first_END_witness :
    (∀ l ∈ ["  RCC    1 0.0".toList, "X END".toList, "ENDX".toList],
      TextLine l ∧ firstToken l ≠ some END) ∧
    TextLine "  END".toList ∧ firstToken "  END".toList = some END ∧
    (List.replicate 100 'q').length = 100 ∧ ([] : List Char) ≠ END ∧
    ["  RCC    1 0.0".toList, "X END".toList, "ENDX".toList].length + 1 ≤ 4 ∧
    ((∃ st1 : State,
      geoLoop 4
        ⟨unlines ["  RCC    1 0.0".toList, "X END".toList, "ENDX".toList]
          ++ ("  END".toList ++ '\n' :: "  Z01\n".toList), [], List.replicate 100 'q', []⟩
        = .ok st1 ∧
      st1.fp = "  Z01\n".toList ∧
      st1.fp_out = [] ++ unlines ["  RCC    1 0.0".toList, "X END".toList, "ENDX".toList]
        ++ ("  END".toList ++ ['\n'])) ∧
    (∀ ws s : List Char, (∀ c ∈ ws, isspace c = true) →
      firstToken (ws ++ s) = firstToken s) ∧
    (∀ t r : List Char, t ≠ [] → (∀ c ∈ t, isspace c = false) →
      (r = [] ∨ ∃ w r1, r = w :: r1 ∧ isspace w = true) → firstToken (t ++ r) = some t) ∧
    firstToken "X END".toList ≠ some END ∧ firstToken "ENDX".toList ≠ some END ∧
    firstToken "  END".toList = some END) :=
  ⟨by decide, by decide, by decide, by decide, by decide, by decide,
   geoLoop_copies_through_first_END
     ["  RCC    1 0.0".toList, "X END".toList, "ENDX".toList] "  END".toList "  Z01\n".toList
     ⟨unlines ["  RCC    1 0.0".toList, "X END".toList, "ENDX".toList]
       ++ ("  END".toList ++ '\n' :: "  Z01\n".toList), [], List.replicate 100 'q', []⟩ 4
     (by decide) (by decide) (by decide) (by decide) (by decide) rfl (by decide)⟩

/-! ## The whole output -/

theorem nil_ne_END : ([] : List Char) ≠ END := by decide

theorem transcode_wellformed (title : List Char) (geo : List (List Char)) (e1 : List Char)
    (zones : List (List Char)) (e2 tail buff0 : List Char) (fuel : Nat)
    (ht : TextLine title) (h20 : 20 ≤ title.length)
    (hgeo : ∀ l ∈ geo, TextLine l ∧ firstToken l ≠ some END)
    (he1 : TextLine e1) (hend1 : firstToken e1 = some END)
    (hzones : ∀ l ∈ zones, TextLine l ∧ ZoneLineOk l ∧ firstToken l ≠ some END)
    (he2 : TextLine e2) (hz2 : ZoneLineOk e2) (hend2 : firstToken e2 = some END)
    (hN : (parsedInts tail).length ≤ 4096) (hbuf : buff0.length = 100)
    (hf1 : geo.length + 1 ≤ fuel) (hf2 : zones.length + 1 ≤ fuel) :
    transcode fuel buff0
          (title ++ '\n' :: (unlines geo ++ (e1 ++ '\n' ::
            (unlines zones ++ (e2 ++ '\n' :: tail)))))
        = .ok (HEADER
            ++ (List.replicate 20 ' ' ++ (title ++ ['\n']).drop 20)
            ++ unlines geo ++ (e1 ++ ['\n'])
            ++ REGRULE
            ++ (zones.map (fun l => zonePatch (l ++ ['\n']))).flatten ++ zonePatch (e2 ++ ['\n'])
            ++ REGRULE ++ "GEOEND\n".toList
            ++ RULE
            ++ ((List.range ((parsedInts tail).length / 2)).map
                (cardAt (parsedInts tail) ((parsedInts tail).length / 2))).flatten
            ++ TRAILER,
          gotZones (parsedInts tail).length ((parsedInts tail).length / 2)) := by
  obtain ⟨b1, hb1, h1⟩ := titlePhase_line
    ⟨title ++ '\n' :: (unlines geo ++ (e1 ++ '\n' :: (unlines zones ++ (e2 ++ '\n' :: tail)))),
      HEADER, buff0, []⟩ title _ ht h20 hbuf rfl
  obtain ⟨b2, hb2, h2⟩ := geoLoop_lines geo e1 (unlines zones ++ (e2 ++ '\n' :: tail))
    ⟨unlines geo ++ (e1 ++ '\n' :: (unlines zones ++ (e2 ++ '\n' :: tail))),
      HEADER ++ (List.replicate 20 ' ' ++ (title ++ ['\n']).drop 20), b1, []⟩ fuel
    hgeo he1 hend1 hb1 nil_ne_END rfl hf1
  obtain ⟨b3, hb3, h3⟩ := zoneLoop_lines zones e2 tail
    ⟨unlines zones ++ (e2 ++ '\n' :: tail),
      HEADER ++ (List.replicate 20 ' ' ++ (title ++ ['\n']).drop 20) ++ unlines geo
        ++ (e1 ++ ['\n']) ++ REGRULE, b2, []⟩ fuel
    hzones he2 hz2 hend2 hb2 nil_ne_END rfl hf2
  have h4 := readVals_parsed tail hN
  have h5 := emitAssign_eq (parsedInts tail)
    (HEADER ++ (List.replicate 20 ' ' ++ (title ++ ['\n']).drop 20) ++ unlines geo
        ++ (e1 ++ ['\n']) ++ REGRULE
        ++ (zones.map (fun l => zonePatch (l ++ ['\n']))).flatten ++ zonePatch (e2 ++ ['\n'])
        ++ REGRULE ++ "GEOEND\n".toList ++ RULE)
  unfold transcode
  dsimp only
  rw [h1]
  simp only [bind, Except.bind]
  rw [h2]
  dsimp only
  rw [h3]
  dsimp only
  rw [h4]
  dsimp only
  rw [h5]
  rfl

/-- C10, counterexample: on the input with title `TESTGEO1` and 20 pad characters, the
geometry body `END`, the zone list `  Z01    1   +1`, `END` and the numeric tail
`0 2 1 5`, the output of `main` has a ruled line between the `GEOEND` card and the
first `ASSIGNMAT` card, so it is not the listed parts with nothing else between
them. -/
theorem ruled_line_after_GEOEND :
    main 2 ["shield2fluka".toList, "pasin.dat".toList]
        (fun _ => some
          "TESTGEO1                    \nEND\n  Z01    1   +1\nEND\n0 2 1 5\n".toList)
        true (List.replicate 100 NUL)
      = .ok { status := 0, stdout := "got 4 zones  - 2\n".toList, stderr := [],
              output := some (HEADER ++ "                            \n".toList
                ++ "END\n".toList ++ REGRULE
                ++ "  Z01   51   +1\n".toList ++ "END\n".toList ++ REGRULE
                ++ "GEOEND\n".toList ++ RULE
                ++ "ASSIGNMAT        3.0       0.0\nASSIGNMAT        7.0       2.0\n".toList
                ++ TRAILER) } ∧
    HEADER ++ "                            \n".toList
        ++ "END\n".toList ++ REGRULE
        ++ "  Z01   51   +1\n".toList ++ "END\n".toList ++ REGRULE
        ++ "GEOEND\n".toList ++ RULE
        ++ "ASSIGNMAT        3.0       0.0\nASSIGNMAT        7.0       2.0\n".toList
        ++ TRAILER
      ≠ HEADER ++ "                            \n".toList
        ++ "END\n".toList ++ REGRULE
        ++ "  Z01   51   +1\n".toList ++ "END\n".toList ++ REGRULE
        ++ "GEOEND\n".toList
        ++ "ASSIGNMAT        3.0       0.0\nASSIGNMAT        7.0       2.0\n".toList
        ++ TRAILER := by
  constructor
  · have h := transcode_wellformed "TESTGEO1                    ".toList [] "END".toList
      ["  Z01    1   +1".toList] "END".toList "0 2 1 5\n".toList (List.replicate 100 NUL) 2
      (by decide) (by decide) (by decide) (by decide) (by decide) (by decide) (by decide)
      (by decide) (by decide) (by decide) (by decide) (by decide) (by decide)
    have hin : "TESTGEO1                    \nEND\n  Z01    1   +1\nEND\n0 2 1 5\n".toList
        = "TESTGEO1                    ".toList ++ '\n' :: ([] ++ ("END".toList ++ '\n' ::
            (unlines ["  Z01    1   +1".toList] ++ ("END".toList ++ '\n' ::
              "0 2 1 5\n".toList)))) := by decide
    have e1 : List.replicate 20 ' ' ++ ("TESTGEO1                    ".toList ++ ['\n']).drop 20
        = "                            \n".toList := by decide
    have e2 : unlines [] = [] := rfl
    have e3 : "END".toList ++ ['\n'] = "END\n".toList := by decide
    have e4 : (["  Z01    1   +1".toList].map (fun l => zonePatch (l ++ ['\n']))).flatten
        = "  Z01   51   +1\n".toList := by decide
    have e5 : zonePatch ("END".toList ++ ['\n']) = "END\n".toList := by decide
    have e6 : ((List.range ((parsedInts "0 2 1 5\n".toList).length / 2)).map
          (cardAt (parsedInts "0 2 1 5\n".toList)
            ((parsedInts "0 2 1 5\n".toList).length / 2))).flatten
        = "ASSIGNMAT        3.0       0.0\nASSIGNMAT        7.0       2.0\n".toList := by
      decide
    have e7 : gotZones (parsedInts "0 2 1 5\n".toList).length
        ((parsedInts "0 2 1 5\n".toList).length / 2) = "got 4 zones  - 2\n".toList := by decide
    rw [e1, e2, e5, e4, e6, e7, e3, List.append_nil] at h
    unfold main
    rw [if_neg (by decide)]
    simp only [List.getElem?_cons_succ, List.getElem?_cons_zero]
    rw [hin, h]
    rfl
  · intro h
    simp only [List.append_assoc, List.append_cancel_left_eq] at h
    have h2 := congrArg List.head? h
    revert h2
    decide

/-- C10, amended: when `main` is given the path of a readable well-formed input
of text (no line holds a NUL character) whose lines fit the line buffer (a title
line of 20 to 98 characters; a geometry body and a zone list whose lines, the
closing lines included, have at most 98 characters before the newline, each list
closed by its first line whose first token is `END`; no primary line of the zone
list, its closing line included, of exactly 7 characters before its newline;
and a numeric tail of at most 4096 integers) and `output.inp` can be written,
`main` returns 0 and the complete text of `output.inp` is, in
this order and with nothing else between: the static header cards, the title
with its first 20 columns blanked, the geometry body, the `*-reg-` ruled line,
the zone list with column 8 of each primary line of 9 or more characters set
to `'5'`, the `*-reg-` ruled line, the `GEOEND` card, a ruled line, one `ASSIGNMAT`
card per zone, and the static trailer (ruled line, `RANDOMIZE`, ruled line,
`START`, `STOP`); header and trailer are the same for every input. -/
theorem main_output_layout (prog path : List Char) (more : List (List Char))
    (title : List Char) (geo : List (List Char))
    (e1 : List Char) (zones : List (List Char)) (e2 tail buff0 : List Char) (fuel : Nat)
    (files : List Char → Option (List Char))
    (ht : TextLine title) (h20 : 20 ≤ title.length)
    (hgeo : ∀ l ∈ geo, TextLine l ∧ firstToken l ≠ some END)
    (he1 : TextLine e1) (hend1 : firstToken e1 = some END)
    (hzones : ∀ l ∈ zones, TextLine l ∧ ZoneLineOk l ∧ firstToken l ≠ some END)
    (he2 : TextLine e2) (hz2 : ZoneLineOk e2) (hend2 : firstToken e2 = some END)
    (hN : (parsedInts tail).length ≤ 4096) (hbuf : buff0.length = 100)
    (hf1 : geo.length + 1 ≤ fuel) (hf2 : zones.length + 1 ≤ fuel)
    (hfile : files path = some (title ++ '\n' :: (unlines geo ++ (e1 ++ '\n' ::
            (unlines zones ++ (e2 ++ '\n' :: tail)))))) :
    ∃ cards : List (List Char),
      main fuel (prog :: path :: more) files true buff0
        = .ok { status := 0,
                stdout := gotZones (parsedInts tail).length ((parsedInts tail).length / 2),
                stderr := [],
                output := some (HEADER
                  ++ (List.replicate 20 ' ' ++ (title ++ ['\n']).drop 20)
                  ++ unlines geo ++ (e1 ++ ['\n'])
                  ++ REGRULE
                  ++ (zones.map (fun l => zonePatch (l ++ ['\n']))).flatten
                  ++ zonePatch (e2 ++ ['\n'])
                  ++ REGRULE ++ "GEOEND\n".toList
                  ++ RULE
                  ++ cards.flatten
                  ++ TRAILER) } ∧
      cards.length = (parsedInts tail).length / 2 ∧
      ∀ i, i < (parsedInts tail).length / 2 → ∃ m z,
        (parsedInts tail)[i + (parsedInts tail).length / 2]? = some m ∧
        (parsedInts tail)[i]? = some z ∧
        cards[i]? = some (assignmat (addInt m 2) z) := by
  have hrun := transcode_wellformed title geo e1 zones e2 tail buff0
    fuel ht h20 hgeo he1 hend1 hzones he2 hz2 hend2 hN hbuf hf1 hf2
  refine ⟨(List.range ((parsedInts tail).length / 2)).map
      (cardAt (parsedInts tail) ((parsedInts tail).length / 2)), ?_,
    (cards_spec (parsedInts tail)).1, (cards_spec (parsedInts tail)).2⟩
  unfold main
  rw [if_neg (by simp)]
  simp only [List.getElem?_cons_succ, List.getElem?_cons_zero, hfile, hrun]
  rfl

/-- Witness for C10 amended: the input of the scenario of the specification. -/
theorem main_output_layout_witness :
    TextLine "TESTGEO1                    ".toList ∧
    20 ≤ "TESTGEO1                    ".toList.length ∧
    (∀ l ∈ ["  RCC    1 0.0".toList], TextLine l ∧ firstToken l ≠ some END) ∧
    TextLine "  END".toList ∧ firstToken "  END".toList = some END ∧
    (∀ l ∈ ["  Z01    1   +1".toList],
      TextLine l ∧ ZoneLineOk l ∧ firstToken l ≠ some END) ∧
    TextLine "END".toList ∧ ZoneLineOk "END".toList ∧ firstToken "END".toList = some END ∧
    (parsedInts "0 2 1 5\n".toList).length ≤ 4096 ∧ (List.replicate 100 NUL).length = 100 ∧
    ∃ cards : List (List Char),
      main 2 ["shield2fluka".toList, "pasin.dat".toList]
          (fun _ => some ("TESTGEO1                    ".toList ++ '\n' ::
            (unlines ["  RCC    1 0.0".toList] ++ ("  END".toList ++ '\n' ::
              (unlines ["  Z01    1   +1".toList] ++ ("END".toList ++ '\n' ::
                "0 2 1 5\n".toList))))))
          true (List.replicate 100 NUL)
        = .ok { status := 0,
                stdout := gotZones (parsedInts "0 2 1 5\n".toList).length
                  ((parsedInts "0 2 1 5\n".toList).length / 2),
                stderr := [],
                output := some (HEADER
                  ++ (List.replicate 20 ' ' ++ ("TESTGEO1                    ".toList
                      ++ ['\n']).drop 20)
                  ++ unlines ["  RCC    1 0.0".toList] ++ ("  END".toList ++ ['\n'])
                  ++ REGRULE
                  ++ (["  Z01    1   +1".toList].map
                      (fun l => zonePatch (l ++ ['\n']))).flatten
                  ++ zonePatch ("END".toList ++ ['\n'])
                  ++ REGRULE ++ "GEOEND\n".toList
                  ++ RULE
                  ++ cards.flatten
                  ++ TRAILER) } ∧
      cards.length = (parsedInts "0 2 1 5\n".toList).length / 2 ∧
      ∀ i, i < (parsedInts "0 2 1 5\n".toList).length / 2 → ∃ m z,
        (parsedInts "0 2 1 5\n".toList)[i + (parsedInts "0 2 1 5\n".toList).length / 2]?
          = some m ∧
        (parsedInts "0 2 1 5\n".toList)[i]? = some z ∧
        cards[i]? = some (assignmat (addInt m 2) z) :=
  ⟨by decide, by decide, by decide, by decide, by decide, by decide, by decide, by decide,
   by decide, by decide, by decide,
   main_output_layout "shield2fluka".toList "pasin.dat".toList []
     "TESTGEO1                    ".toList ["  RCC    1 0.0".toList] "  END".toList
     ["  Z01    1   +1".toList] "END".toList "0 2 1 5\n".toList (List.replicate 100 NUL) 2
     (fun _ => some ("TESTGEO1                    ".toList ++ '\n' ::
            (unlines ["  RCC    1 0.0".toList] ++ ("  END".toList ++ '\n' ::
              (unlines ["  Z01    1   +1".toList] ++ ("END".toList ++ '\n' ::
                "0 2 1 5\n".toList))))))
     (by decide) (by decide) (by decide) (by decide) (by decide) (by decide) (by decide)
     (by decide) (by decide) (by decide) (by decide) (by decide) (by decide) rfl⟩

/-! ## The command line -/

/-- C11: when `main` is invoked with no command-line argument (`argc == 1`), it
writes the usage text to standard output and exits with status 0, whatever
files exist: no input file is opened and `output.inp` is not opened, so nothing
is created or written. -/
theorem main_no_argument_prints_usage (fuel : Nat) (prog : List Char)
    (files : List Char → Option (List Char)) (writable : Bool) (buff0 : List Char) :
    main fuel [prog] files writable buff0
      = .ok { status := 0, stdout := USAGE, stderr := [], output := none } ∧
    USAGE = ("This is shield2fluka v.1.1\nReport bugs to Niels Bassler <bassler@phys.au.dk>.\n\n"
      ++ "Please specify input filename as argument, e.g.:\n\n  shield2fluka pasin.dat\n").toList ∧
    exitByte 0 = 0 := by
  refine ⟨rfl, by decide, by decide⟩

theorem count_newline_error_line (path : List Char) (h : '\n' ∉ path) :
    ("ERROR: could not find file ".toList ++ path ++ "\n".toList).count '\n' = 1 := by
  rw [List.count_append, List.count_append, List.count_eq_zero_of_not_mem h]
  decide

/-- C12: when an argument is supplied and the input path cannot be opened for
reading, `main` writes one error line naming that path to standard error and
exits with status -1, which is the exit code 255, whether or not `output.inp`
could be opened: the exit comes before `output.inp` is opened, so that file is
neither created nor truncated nor written, and nothing goes to standard output. -/
theorem main_input_unreadable (fuel : Nat) (prog path : List Char) (more : List (List Char))
    (files : List Char → Option (List Char)) (writable : Bool) (buff0 : List Char)
    (hfile : files path = none) :
    main fuel (prog :: path :: more) files writable buff0
      = .ok { status := -1, stdout := [],
              stderr := "ERROR: could not find file ".toList ++ path ++ "\n".toList,
              output := none } ∧
    exitByte (-1) = 255 ∧ exitByte (-1) ≠ 0 ∧
    ('\n' ∉ path →
      ("ERROR: could not find file ".toList ++ path ++ "\n".toList).count '\n' = 1) := by
  refine ⟨?_, by decide, by decide, count_newline_error_line path⟩
  unfold main
  rw [if_neg (by simp)]
  simp only [List.getElem?_cons_succ, List.getElem?_cons_zero, hfile]

/-- Witness for C12: the path `nofile.dat` when no file can be read. -/
theorem main_input_unreadable_witness :
    (fun _ : List Char => (none : Option (List Char))) "nofile.dat".toList = none ∧
    (main 0 ("shield2fluka".toList :: "nofile.dat".toList :: []) (fun _ => none) true
        (List.replicate 100 NUL)
      = .ok { status := -1, stdout := [],
              stderr := "ERROR: could not find file ".toList ++ "nofile.dat".toList
                ++ "\n".toList,
              output := none } ∧
    exitByte (-1) = 255 ∧ exitByte (-1) ≠ 0 ∧
    ('\n' ∉ "nofile.dat".toList →
      ("ERROR: could not find file ".toList ++ "nofile.dat".toList ++ "\n".toList).count '\n'
        = 1)) :=
  ⟨rfl, main_input_unreadable 0 "shield2fluka".toList "nofile.dat".toList [] (fun _ => none)
    true (List.replicate 100 NUL) rfl⟩

/-! ## Bounds of the arrays -/

theorem cstr_append_nul_any (k t : List Char) : cstr (k ++ NUL :: t) = cstr k := by
  unfold cstr
  induction k with
  | nil => simp [List.takeWhile_cons]
  | cons x k ih =>
    simp only [List.cons_append, List.takeWhile_cons, ih]

theorem cstr_length_le (k : List Char) : (cstr k).length ≤ k.length := by
  unfold cstr
  exact (List.takeWhile_sublist _).length_le

theorem cstrOf_terminated (k t : List Char) : cstrOf (k ++ NUL :: t) = .ok (cstr k) := by
  unfold cstrOf
  rw [if_pos (by simp), cstr_append_nul_any]

theorem drop_append_cons (k t : List Char) (x : Char) (n : Nat) (h : k.length < n) :
    (k ++ x :: t).drop n = t.drop (n - k.length - 1) := by
  rw [List.drop_append_eq_append_drop, List.drop_eq_nil_of_le (by omega)]
  obtain ⟨m, hm⟩ : ∃ m, n - k.length = m + 1 := ⟨n - k.length - 1, by omega⟩
  rw [hm]
  simp

theorem getElem?_append_cons_self (k t : List Char) (x : Char) :
    (k ++ x :: t)[k.length]? = some x := by
  rw [List.getElem?_append_right (Nat.le_refl _)]
  simp

/-- C15: for every stream, every capacity `lim >= 2` and every array `s` with room
for `lim` characters (and any memory after them), `mygetline` leaves every
position from `lim` on as it was, so it writes positions `0..lim-1` only; it
stores a NUL at a position `n <= lim-1`, so the array holds a terminated string
of at most `lim-1` characters; and when the newline is the character at
position `lim-1` of the stream, the `lim-1` characters before it are stored,
the terminator goes to position `lim-1`, and the newline stays in the stream. -/
theorem mygetline_writes_within_capacity (r s : List Char) (lim : Nat) (hlim : 2 ≤ lim)
    (hs : lim ≤ s.length) :
    (mygetline r s lim).buf.length = s.length ∧
    (mygetline r s lim).buf.drop lim = s.drop lim ∧
    (∃ n, n ≤ lim - 1 ∧ (mygetline r s lim).buf[n]? = some NUL ∧
      (∃ str, cstrOf (mygetline r s lim).buf = .ok str ∧ str.length ≤ n)) ∧
    (∀ l rest : List Char, r = l ++ '\n' :: rest → l.length = lim - 1 → '\n' ∉ l →
      mygetline r s lim = ⟨l ++ NUL :: s.drop lim, '\n' :: rest, ((lim - 1 : Nat) : Int)⟩) := by
  have hk := lineChunk_length_le (lim - 1) r
  have heq := mygetline_eq r s lim (by omega) hs
  refine ⟨?_, ?_, ?_, ?_⟩
  · rw [heq]
    simp only [List.length_append, List.length_cons, List.length_drop]
    omega
  · rw [heq]
    simp only
    rw [drop_append_cons _ _ _ _ (by omega), List.drop_drop]
    congr 1
    omega
  · refine ⟨(lineChunk (lim - 1) r).length, hk, ?_, cstr (lineChunk (lim - 1) r), ?_, ?_⟩
    · rw [heq]
      exact getElem?_append_cons_self _ _ _
    · rw [heq]
      exact cstrOf_terminated _ _
    · exact cstr_length_le _
  · intro l rest hr hl hnl
    have hc : lineChunk (lim - 1) r = l := by
      rw [lineChunk_no_newline, hr, ← hl]
      · simp
      · intro p hp hget
        rw [hr, List.getElem?_append_left (by omega)] at hget
        exact hnl (List.getElem?_mem hget)
    rw [heq, hc, hl]
    have h1 : lim - 1 + 1 = lim := by omega
    have h2 : ¬ (r.length < lim - 1 ∧ '\n' ∉ r) := by
      rw [hr]; simp
    rw [h1, if_neg h2]
    simp [hr, ← hl]

/-- Witness for C15: a stream of 99 characters `x` followed by a newline, read with
capacity 100 into an array of 100 characters followed by two more. -/
theorem mygetline_writes_within_capacity_witness :
    2 ≤ 100 ∧ 100 ≤ (List.replicate 100 'q' ++ ['a', 'b']).length ∧
    ((mygetline (List.replicate 99 'x' ++ '\n' :: "END\n".toList)
        (List.replicate 100 'q' ++ ['a', 'b']) 100).buf.length
      = (List.replicate 100 'q' ++ ['a', 'b']).length ∧
    (mygetline (List.replicate 99 'x' ++ '\n' :: "END\n".toList)
        (List.replicate 100 'q' ++ ['a', 'b']) 100).buf.drop 100
      = (List.replicate 100 'q' ++ ['a', 'b']).drop 100 ∧
    (∃ n, n ≤ 100 - 1 ∧
      (mygetline (List.replicate 99 'x' ++ '\n' :: "END\n".toList)
        (List.replicate 100 'q' ++ ['a', 'b']) 100).buf[n]? = some NUL ∧
      (∃ str, cstrOf (mygetline (List.replicate 99 'x' ++ '\n' :: "END\n".toList)
        (List.replicate 100 'q' ++ ['a', 'b']) 100).buf = .ok str ∧ str.length ≤ n)) ∧
    (∀ l rest : List Char,
      List.replicate 99 'x' ++ '\n' :: "END\n".toList = l ++ '\n' :: rest →
      l.length = 100 - 1 → '\n' ∉ l →
      mygetline (List.replicate 99 'x' ++ '\n' :: "END\n".toList)
          (List.replicate 100 'q' ++ ['a', 'b']) 100
        = ⟨l ++ NUL :: (List.replicate 100 'q' ++ ['a', 'b']).drop 100, '\n' :: rest,
            ((100 - 1 : Nat) : Int)⟩)) :=
  ⟨by decide, by decide,
   mygetline_writes_within_capacity (List.replicate 99 'x' ++ '\n' :: "END\n".toList)
     (List.replicate 100 'q' ++ ['a', 'b']) 100 (by decide) (by decide)⟩

theorem readVals_overflow : ∀ (fuel : Nat) (fp : List Char) (val : List Int),
    fp.length < fuel → val.length ≤ VAL_SIZE →
    VAL_SIZE < val.length + (parsedInts fp).length →
    readVals fuel fp val = .error .undefined := by
  intro fuel
  induction fuel with
  | zero => intro fp val h; omega
  | succ f ih =>
    intro fp val hlt hval hcap
    rw [readVals]
    have hp : parsedInts fp = scanAll (f + 1) fp := (scanAll_fuel _ _ hlt).symm
    rw [hp, scanAll] at hcap
    cases hs : fscanf_i fp with
    | none =>
      rw [hs] at hcap
      simp at hcap
      omega
    | some p =>
      obtain ⟨a, fp1⟩ := p
      have hl := fscanf_i_length hs
      rw [hs] at hcap
      simp only [List.length_cons] at hcap
      simp only
      by_cases hv : val.length < VAL_SIZE
      · rw [if_pos hv]
        rw [scanAll_fuel f fp1 (by omega)] at hcap
        exact ih fp1 _ (by omega) (by simp; omega) (by simp; omega)
      · rw [if_neg hv]

/-- C16: with `N` the number of integers that the loop of line 94 parses from the
tail: the loop runs without a store outside the 4096 entries of `val` exactly
when `N <= 4096`, and then stores the `N` parsed values at positions `0..N-1`;
with `N > 4096` a store goes to position 4096.  When `N <= 4096`, every position
read while the cards are written, `i` and `i + n_zones` for `i` below
`n_zones = N / 2`, is below `N` and holds a parsed value, and the emitter
returns normally. -/
theorem val_accesses_in_bounds (fp out : List Char) :
    (readVals (fp.length + 1) fp [] = .ok (parsedInts fp) ↔ (parsedInts fp).length ≤ 4096) ∧
    (4096 < (parsedInts fp).length →
      readVals (fp.length + 1) fp [] = .error .undefined) ∧
    (∀ i, i < (parsedInts fp).length / 2 →
      i < (parsedInts fp).length ∧ i + (parsedInts fp).length / 2 < (parsedInts fp).length ∧
      ∃ m z, (parsedInts fp)[i + (parsedInts fp).length / 2]? = some m ∧
        (parsedInts fp)[i]? = some z) ∧
    (∃ cards : List (List Char), emitAssign (parsedInts fp) out = .ok (out ++ cards.flatten) ∧
      cards.length = (parsedInts fp).length / 2) := by
  have hover : 4096 < (parsedInts fp).length →
      readVals (fp.length + 1) fp [] = .error .undefined := by
    intro h
    exact readVals_overflow _ fp [] (by omega) (by simp [VAL_SIZE]) (by simpa [VAL_SIZE] using h)
  refine ⟨⟨?_, readVals_parsed fp⟩, hover, ?_, ?_⟩
  · intro hok
    by_contra hgt
    rw [hover (by omega)] at hok
    exact absurd hok (by simp)
  · intro i hi
    have h1 : i < (parsedInts fp).length := by omega
    have h2 : i + (parsedInts fp).length / 2 < (parsedInts fp).length := by omega
    exact ⟨h1, h2, _, _, List.getElem?_eq_getElem h2, List.getElem?_eq_getElem h1⟩
  · obtain ⟨cards, h1, h2, _⟩ := emitAssign_spec (parsedInts fp) out
    exact ⟨cards, h1, h2⟩

/-- Witness for C16: the tail `0 2 1 5`. -/
theorem val_accesses_in_bounds_witness :
    parsedInts "0 2 1 5\n".toList = [0, 2, 1, 5] ∧
    ((readVals ("0 2 1 5\n".toList.length + 1) "0 2 1 5\n".toList []
        = .ok (parsedInts "0 2 1 5\n".toList) ↔ (parsedInts "0 2 1 5\n".toList).length ≤ 4096) ∧
    (4096 < (parsedInts "0 2 1 5\n".toList).length →
      readVals ("0 2 1 5\n".toList.length + 1) "0 2 1 5\n".toList [] = .error .undefined) ∧
    (∀ i, i < (parsedInts "0 2 1 5\n".toList).length / 2 →
      i < (parsedInts "0 2 1 5\n".toList).length ∧
      i + (parsedInts "0 2 1 5\n".toList).length / 2 < (parsedInts "0 2 1 5\n".toList).length ∧
      ∃ m z, (parsedInts "0 2 1 5\n".toList)[i + (parsedInts "0 2 1 5\n".toList).length / 2]?
          = some m ∧
        (parsedInts "0 2 1 5\n".toList)[i]? = some z) ∧
    (∃ cards : List (List Char),
      emitAssign (parsedInts "0 2 1 5\n".toList) [] = .ok ([] ++ cards.flatten) ∧
      cards.length = (parsedInts "0 2 1 5\n".toList).length / 2)) :=
  ⟨by decide, val_accesses_in_bounds "0 2 1 5\n".toList []⟩

/-! ## The columns of a card -/

theorem decDigits_length_le : ∀ (k fuel n : Nat), 1 ≤ k → n < 10 ^ k → k ≤ fuel →
    (decDigits fuel n).length ≤ k := by
  intro k
  induction k with
  | zero => intro fuel n h; omega
  | succ k ih =>
    intro fuel n _ hn hf
    obtain ⟨f, rfl⟩ : ∃ f, fuel = f + 1 := ⟨fuel - 1, by omega⟩
    rw [decDigits]
    by_cases h10 : n < 10
    · rw [if_pos h10]; simp
    · rw [if_neg h10]
      have hk : 1 ≤ k := by
        rcases Nat.eq_zero_or_pos k with h0 | h0
        · subst h0; simp at hn; omega
        · exact h0
      have hdiv : n / 10 < 10 ^ k := by
        rw [Nat.div_lt_iff_lt_mul (by decide)]
        rw [Nat.pow_succ] at hn
        exact hn
      have := ih f (n / 10) hk hdiv (by omega)
      simp only [List.length_append, List.length_singleton]
      omega

theorem natDec_length_le (k n : Nat) (hk : 1 ≤ k) (hn : n < 10 ^ k) :
    (natDec n).length ≤ k := by
  unfold natDec
  by_cases h : k ≤ n + 1
  · exact decDigits_length_le k (n + 1) n hk hn h
  · have hlt : n + 1 < 10 ^ (n + 1) := Nat.lt_pow_self (by omega) (n + 1)
    have := decDigits_length_le (n + 1) (n + 1) n (by omega) (by omega) (Nat.le_refl _)
    omega

theorem fmt_i_length_le (v : Int) (h1 : -9999 ≤ v) (h2 : v ≤ 99999) :
    (fmt_i v).length ≤ 5 := by
  unfold fmt_i
  by_cases hv : v < 0
  · rw [if_pos hv]
    have : (natDec v.natAbs).length ≤ 4 := natDec_length_le 4 _ (by omega) (by omega)
    simp only [List.length_cons]
    omega
  · rw [if_neg hv]
    exact natDec_length_le 5 _ (by omega) (by omega)

theorem fmt_5i_length (v : Int) : (fmt_5i v).length = max 5 (fmt_i v).length := by
  unfold fmt_5i
  simp only [List.length_append, List.length_replicate]
  omega

theorem assignmat_length (a b : Int) :
    (assignmat a b).length = 21 + max 5 (fmt_i a).length + max 5 (fmt_i b).length := by
  unfold assignmat
  simp only [List.length_append, fmt_5i_length]
  have h1 : "ASSIGNMAT    ".toList.length = 13 := by decide
  have h2 : ".0   ".toList.length = 5 := by decide
  have h3 : ".0\n".toList.length = 3 := by decide
  rw [h1, h2, h3]
  omega

/-- C19, counterexample: for the tail `7 99998` the emitter writes the card
`ASSIGNMAT    100000.0       7.0`: the first field holds `99998 + 2`, which takes 6
characters, the card has 31 characters before its newline, and its first
field ends at column 21. -/
theorem card_longer_than_30_characters :
    parsedInts "7 99998\n".toList = [7, 99998] ∧
    emitAssign [7, 99998] [] = .ok "ASSIGNMAT    100000.0       7.0\n".toList ∧
    "ASSIGNMAT    100000.0       7.0\n".toList.length = 32 ∧
    "ASSIGNMAT    100000.0       7.0\n".toList.length ≠ 30 + 1 ∧
    "ASSIGNMAT    100000.0       7.0\n".toList.take 20 ≠ "ASSIGNMAT    ".toList ++ fmt_5i 100000
      ++ ".0".toList ∧
    "ASSIGNMAT    100000.0       7.0\n".toList.take 21 = "ASSIGNMAT    ".toList ++ fmt_5i 100000
      ++ ".0".toList := by
  decide

/-- C19, amended: every `ASSIGNMAT` card written for a pair of values that each
print in at most 5 characters (from -9999 to 99999) is a fixed-column record:
it has exactly 30 characters and the newline, the keyword is in columns 1 to
9, the first numeric field (the value right-aligned in 5 columns, then `.0`)
ends at column 20 and the second ends at column 30.  For any pair of values
the card has `21 + max 5 a' + max 5 b'` characters, newline included, where
`a'` and `b'` are the numbers of characters that `%i` prints for the values. -/
theorem card_fixed_columns (a b : Int) (ha1 : -9999 ≤ a) (ha2 : a ≤ 99999)
    (hb1 : -9999 ≤ b) (hb2 : b ≤ 99999) :
    (assignmat a b).length = 30 + 1 ∧
    (fmt_5i a).length = 5 ∧ (fmt_5i b).length = 5 ∧
    (assignmat a b).take 9 = "ASSIGNMAT".toList ∧
    (assignmat a b).take 20 = "ASSIGNMAT    ".toList ++ fmt_5i a ++ ".0".toList ∧
    (assignmat a b).take 30
      = "ASSIGNMAT    ".toList ++ fmt_5i a ++ ".0   ".toList ++ fmt_5i b ++ ".0".toList ∧
    (assignmat a b).drop 30 = ['\n'] ∧
    (∀ x y : Int, (assignmat x y).length
      = 21 + max 5 (fmt_i x).length + max 5 (fmt_i y).length) := by
  have la := fmt_i_length_le a ha1 ha2
  have lb := fmt_i_length_le b hb1 hb2
  have fa : (fmt_5i a).length = 5 := by rw [fmt_5i_length]; omega
  have fb : (fmt_5i b).length = 5 := by rw [fmt_5i_length]; omega
  have hK : "ASSIGNMAT    ".toList = "ASSIGNMAT".toList ++ "    ".toList := by decide
  have hM : ".0   ".toList = ".0".toList ++ "   ".toList := by decide
  have hE : ".0\n".toList = ".0".toList ++ ['\n'] := by decide
  have l9 : "ASSIGNMAT".toList.length = 9 := by decide
  have l13 : "ASSIGNMAT    ".toList.length = 13 := by decide
  have l5 : ".0   ".toList.length = 5 := by decide
  have l2 : ".0".toList.length = 2 := by decide
  refine ⟨?_, fa, fb, ?_, ?_, ?_, ?_, assignmat_length⟩
  · rw [assignmat_length]; omega
  · unfold assignmat
    rw [hK]
    simp only [List.append_assoc]
    exact List.take_left' l9
  · unfold assignmat
    rw [hM]
    have : "ASSIGNMAT    ".toList ++ fmt_5i a ++ (".0".toList ++ "   ".toList) ++ fmt_5i b
          ++ ".0\n".toList
        = ("ASSIGNMAT    ".toList ++ fmt_5i a ++ ".0".toList)
          ++ ("   ".toList ++ fmt_5i b ++ ".0\n".toList) := by
      simp only [List.append_assoc]
    rw [this]
    exact List.take_left' (by simp only [List.length_append, l13, fa, l2])
  · unfold assignmat
    rw [hE]
    have : "ASSIGNMAT    ".toList ++ fmt_5i a ++ ".0   ".toList ++ fmt_5i b
          ++ (".0".toList ++ ['\n'])
        = ("ASSIGNMAT    ".toList ++ fmt_5i a ++ ".0   ".toList ++ fmt_5i b ++ ".0".toList)
          ++ ['\n'] := by
      simp only [List.append_assoc]
    rw [this]
    exact List.take_left' (by simp only [List.length_append, l13, fa, l5, fb, l2])
  · unfold assignmat
    rw [hE]
    have : "ASSIGNMAT    ".toList ++ fmt_5i a ++ ".0   ".toList ++ fmt_5i b
          ++ (".0".toList ++ ['\n'])
        = ("ASSIGNMAT    ".toList ++ fmt_5i a ++ ".0   ".toList ++ fmt_5i b ++ ".0".toList)
          ++ ['\n'] := by
      simp only [List.append_assoc]
    rw [this]
    exact List.drop_left' (by simp only [List.length_append, l13, fa, l5, fb, l2])

/-- Witness for C19 amended: the card for the values 4 and 5. -/
theorem card_fixed_columns_witness :
    (-9999 : Int) ≤ 4 ∧ (4 : Int) ≤ 99999 ∧ (-9999 : Int) ≤ 5 ∧ (5 : Int) ≤ 99999 ∧
    assignmat 4 5 = "ASSIGNMAT        4.0       5.0\n".toList ∧
    ((assignmat 4 5).length = 30 + 1 ∧
    (fmt_5i 4).length = 5 ∧ (fmt_5i 5).length = 5 ∧
    (assignmat 4 5).take 9 = "ASSIGNMAT".toList ∧
    (assignmat 4 5).take 20 = "ASSIGNMAT    ".toList ++ fmt_5i 4 ++ ".0".toList ∧
    (assignmat 4 5).take 30
      = "ASSIGNMAT    ".toList ++ fmt_5i 4 ++ ".0   ".toList ++ fmt_5i 5 ++ ".0".toList ∧
    (assignmat 4 5).drop 30 = ['\n'] ∧
    (∀ x y : Int, (assignmat x y).length
      = 21 + max 5 (fmt_i x).length + max 5 (fmt_i y).length)) :=
  ⟨by decide, by decide, by decide, by decide, by decide,
   card_fixed_columns 4 5 (by decide) (by decide) (by decide) (by decide)⟩

/-! ## Reading integers with `%i` -/

theorem dropWhile_append_all (p : Char → Bool) (ws x : List Char) (h : ∀ c ∈ ws, p c = true) :
    (ws ++ x).dropWhile p = x.dropWhile p := by
  induction ws with
  | nil => rfl
  | cons a ws ih =>
    have ha : p a = true := h a (by simp)
    simp only [List.cons_append, List.dropWhile_cons, ha, if_true]
    exact ih (fun c hc => h c (by simp [hc]))

theorem takeWhile_append_all (p : Char → Bool) (ds rest : List Char)
    (h : ∀ c ∈ ds, p c = true) (hr : ∀ c ∈ rest.head?, p c = false) :
    (ds ++ rest).takeWhile p = ds ∧ (ds ++ rest).dropWhile p = rest := by
  induction ds with
  | nil =>
    cases rest with
    | nil => simp
    | cons x rest =>
      have hx : p x = false := hr x (by simp)
      simp [List.takeWhile_cons, List.dropWhile_cons, hx]
  | cons a ds ih =>
    have ha : p a = true := h a (by simp)
    have := ih (fun c hc => h c (by simp [hc]))
    simp [List.takeWhile_cons, List.dropWhile_cons, ha, this.1, this.2]

theorem fscanf_i_cons (fp x : List Char) (hx : x ≠ [])
    (h : fp.dropWhile isspace = x) :
    fscanf_i fp =
      if !(scanBase (scanSign x).2).2.1
          && ((scanBase (scanSign x).2).2.2.takeWhile
              (isDigitOf (scanBase (scanSign x).2).1)).isEmpty then none
      else some (wrapInt (strtolVal (scanSign x).1
          (numVal (scanBase (scanSign x).2).1
            ((scanBase (scanSign x).2).2.2.takeWhile
              (isDigitOf (scanBase (scanSign x).2).1)))),
        (scanBase (scanSign x).2).2.2.dropWhile
          (isDigitOf (scanBase (scanSign x).2).1)) := by
  unfold fscanf_i
  rw [h]
  cases x with
  | nil => exact absurd rfl hx
  | cons c r => rfl

theorem isspace_iff (c : Char) :
    isspace c = true ↔ c = ' ' ∨ c = '\t' ∨ c = '\n' ∨ c = Char.ofNat 11 ∨ c = Char.ofNat 12
      ∨ c = '\r' := by
  simp [isspace, or_assoc]

theorem digit_not_space (d : Char) (h : isDigitOf 10 d = true) : isspace d = false := by
  rw [← Bool.not_eq_true, isspace_iff]
  rintro (rfl | rfl | rfl | rfl | rfl | rfl) <;> revert h <;> decide

theorem space_not_digit (base : Nat) (c : Char) (h : isspace c = true) :
    isDigitOf base c = false := by
  rw [isspace_iff] at h
  unfold isDigitOf
  rcases h with rfl | rfl | rfl | rfl | rfl | rfl <;> split <;> simp

theorem scanSign_digit (d : Char) (r : List Char) (h : isDigitOf 10 d = true) :
    scanSign (d :: r) = (false, d :: r) := by
  unfold scanSign
  split
  · rename_i heq
    simp only [List.cons.injEq] at heq
    rw [heq.1] at h
    exact absurd h (by decide)
  · rename_i heq
    simp only [List.cons.injEq] at heq
    rw [heq.1] at h
    exact absurd h (by decide)
  · rfl

theorem scanSign_token (sg : List Char) (d : Char) (r : List Char)
    (hsg : sg = [] ∨ sg = ['+'] ∨ sg = ['-']) (h : isDigitOf 10 d = true) :
    scanSign (sg ++ d :: r) = (decide (sg = ['-']), d :: r) := by
  rcases hsg with rfl | rfl | rfl
  · simpa using scanSign_digit d r h
  · rfl
  · rfl

theorem scanBase_nonzero (d : Char) (r : List Char) (h : d ≠ '0') :
    scanBase (d :: r) = (10, false, d :: r) := by
  unfold scanBase
  split
  · rename_i heq
    simp only [List.cons.injEq] at heq
    exact absurd heq.1 h
  · rename_i heq
    simp only [List.cons.injEq] at heq
    exact absurd heq.1 h
  · rename_i heq
    simp only [List.cons.injEq] at heq
    exact absurd heq.1 h
  · rfl

theorem scanBase_octal (r : List Char) (h : ∀ c ∈ r.head?, c ≠ 'x' ∧ c ≠ 'X') :
    scanBase ('0' :: r) = (8, true, r) := by
  unfold scanBase
  split
  · rename_i heq
    simp only [List.cons.injEq, true_and] at heq
    rw [heq] at h
    exact absurd rfl (h 'x' (by simp)).1
  · rename_i heq
    simp only [List.cons.injEq, true_and] at heq
    rw [heq] at h
    exact absurd rfl (h 'X' (by simp)).2
  · rename_i heq
    simp only [List.cons.injEq, true_and] at heq
    rw [heq]
  · rename_i _ _ hne
    exact absurd rfl (hne r)

theorem wrapInt_strtolVal (neg : Bool) (m : Nat) (h : (m : Int) ≤ 2147483647) :
    wrapInt (strtolVal neg m) = if neg = true then -(m : Int) else (m : Int) := by
  unfold wrapInt strtolVal LONG_MAX
  cases neg
  · simp only [Bool.false_eq_true, if_false]
    omega
  · simp only [if_true]
    omega

theorem wrapInt_range (x : Int) : -2147483648 ≤ wrapInt x ∧ wrapInt x ≤ 2147483647 := by
  unfold wrapInt
  omega

theorem wrapInt_strtolVal_signed (sg : List Char) (m : Nat)
    (hlo : -2147483648 ≤ signedVal sg m) (hhi : signedVal sg m ≤ 2147483647) :
    wrapInt (strtolVal (decide (sg = ['-'])) m) = signedVal sg m := by
  unfold signedVal at *
  unfold wrapInt strtolVal LONG_MAX
  by_cases h : sg = ['-']
  · simp only [h, decide_True, if_true] at *
    omega
  · simp only [h, decide_False, if_false, Bool.false_eq_true] at *
    omega

theorem dropWhile_token (ws sg : List Char) (d : Char) (r : List Char)
    (hws : ∀ c ∈ ws, isspace c = true) (hsg : sg = [] ∨ sg = ['+'] ∨ sg = ['-'])
    (hd : isDigitOf 10 d = true) :
    (ws ++ (sg ++ d :: r)).dropWhile isspace = sg ++ d :: r := by
  rw [dropWhile_append_all isspace ws _ hws]
  have hds := digit_not_space d hd
  rcases hsg with rfl | rfl | rfl
  · simp [List.dropWhile_cons, hds]
  · rfl
  · rfl

theorem fscanf_i_decimal (ws sg : List Char) (d : Char) (ds rest : List Char)
    (hws : ∀ c ∈ ws, isspace c = true) (hsg : sg = [] ∨ sg = ['+'] ∨ sg = ['-'])
    (hd : isDigitOf 10 d = true) (hd0 : d ≠ '0') (hds : ∀ c ∈ ds, isDigitOf 10 c = true)
    (hrest : ∀ c ∈ rest.head?, isspace c = true) :
    fscanf_i (ws ++ (sg ++ d :: (ds ++ rest)))
      = some (wrapInt (strtolVal (decide (sg = ['-'])) (numVal 10 (d :: ds))), rest) := by
  have hx : sg ++ d :: (ds ++ rest) ≠ [] := by simp
  rw [fscanf_i_cons _ _ hx (dropWhile_token ws sg d _ hws hsg hd),
    scanSign_token sg d _ hsg hd]
  simp only
  rw [scanBase_nonzero d _ hd0]
  simp only
  have htw := takeWhile_append_all (isDigitOf 10) (d :: ds) rest
    (by
      intro c hc
      rcases List.mem_cons.mp hc with rfl | h
      · exact hd
      · exact hds c h)
    (fun c hc => space_not_digit 10 c (hrest c hc))
  simp only [List.cons_append] at htw
  rw [htw.1, htw.2]
  rfl

theorem fscanf_i_octal (ws sg os rest : List Char)
    (hws : ∀ c ∈ ws, isspace c = true) (hsg : sg = [] ∨ sg = ['+'] ∨ sg = ['-'])
    (hos : ∀ c ∈ os, isDigitOf 8 c = true)
    (hrest : ∀ c ∈ rest.head?, isspace c = true) :
    fscanf_i (ws ++ (sg ++ '0' :: (os ++ rest)))
      = some (wrapInt (strtolVal (decide (sg = ['-'])) (numVal 8 os)), rest) := by
  have hx : sg ++ '0' :: (os ++ rest) ≠ [] := by simp
  have h0 : isDigitOf 10 '0' = true := by decide
  rw [fscanf_i_cons _ _ hx (dropWhile_token ws sg '0' _ hws hsg h0),
    scanSign_token sg '0' _ hsg h0]
  simp only
  have hhead : ∀ c ∈ (os ++ rest).head?, c ≠ 'x' ∧ c ≠ 'X' := by
    intro c hc
    cases os with
    | nil =>
      have hsp := hrest c (by simpa using hc)
      constructor <;> (rintro rfl; revert hsp; decide)
    | cons o os =>
      have ho := hos o (by simp)
      have : c = o := by simpa using hc.symm
      subst this
      constructor <;> (rintro rfl; revert ho; decide)
  rw [scanBase_octal _ hhead]
  simp only
  have htw := takeWhile_append_all (isDigitOf 8) os rest hos
    (fun c hc => space_not_digit 8 c (hrest c hc))
  rw [htw.1, htw.2]
  rfl

/-- C18, counterexample: the token `010` is stored as 8, not 10, because `%i` reads a
numeral that begins with `0` in base 8; the token `09` is read as 0 followed by
a second integer 9; and a numeral beyond the range of `int` such as `4294967297`
is stored as another value. -/
theorem leading_zero_read_as_octal :
    fscanf_i "010 2\n".toList = some (8, " 2\n".toList) ∧
    parsedInts "010 2\n".toList = [8, 2] ∧
    numVal 10 "010".toList = 10 ∧ (8 : Int) ≠ 10 ∧
    parsedInts "09 2\n".toList = [0, 9, 2] ∧
    fscanf_i "4294967297 ".toList = some (1, " ".toList) := by
  decide

/-- C18, amended: a token of the numeric tail (after any blanks, an optional sign
and decimal digits `d ds`, ended by a blank or the end of the input) whose
first digit is not 0 and whose value, taken with its sign, lies in the range
of `int`, from -2147483648 to 2147483647, is read as the decimal integer it
denotes; whatever its value, what is stored is that value brought to the
nearest `long` and then truncated to `int`, and when the value lies outside the
range of `int` the stored integer differs from it; a token whose first digit is
0 and whose other digits are below 8 is read as the base-8 numeral of those
digits, with its sign, when that value lies in the range of `int`. -/
theorem decimal_token_read_as_decimal (ws sg : List Char) (d : Char) (ds rest : List Char)
    (hws : ∀ c ∈ ws, isspace c = true) (hsg : sg = [] ∨ sg = ['+'] ∨ sg = ['-'])
    (hd : isDigitOf 10 d = true) (hds : ∀ c ∈ ds, isDigitOf 10 c = true)
    (hrest : ∀ c ∈ rest.head?, isspace c = true) :
    (d ≠ '0' → -2147483648 ≤ signedVal sg (numVal 10 (d :: ds)) →
      signedVal sg (numVal 10 (d :: ds)) ≤ 2147483647 →
      fscanf_i (ws ++ (sg ++ d :: (ds ++ rest)))
        = some (signedVal sg (numVal 10 (d :: ds)), rest)) ∧
    (d ≠ '0' →
      fscanf_i (ws ++ (sg ++ d :: (ds ++ rest)))
        = some (wrapInt (strtolVal (decide (sg = ['-'])) (numVal 10 (d :: ds))), rest)) ∧
    (d ≠ '0' →
      ¬ (-2147483648 ≤ signedVal sg (numVal 10 (d :: ds)) ∧
          signedVal sg (numVal 10 (d :: ds)) ≤ 2147483647) →
      ∃ v, fscanf_i (ws ++ (sg ++ d :: (ds ++ rest))) = some (v, rest) ∧
        v ≠ signedVal sg (numVal 10 (d :: ds))) ∧
    (d = '0' → (∀ c ∈ ds, isDigitOf 8 c = true) →
      -2147483648 ≤ signedVal sg (numVal 8 ds) → signedVal sg (numVal 8 ds) ≤ 2147483647 →
      fscanf_i (ws ++ (sg ++ d :: (ds ++ rest)))
        = some (signedVal sg (numVal 8 ds), rest)) := by
  refine ⟨?_, ?_, ?_, ?_⟩
  · intro hd0 hlo hhi
    rw [fscanf_i_decimal ws sg d ds rest hws hsg hd hd0 hds hrest,
      wrapInt_strtolVal_signed _ _ hlo hhi]
  · intro hd0
    exact fscanf_i_decimal ws sg d ds rest hws hsg hd hd0 hds hrest
  · intro hd0 hout
    refine ⟨_, fscanf_i_decimal ws sg d ds rest hws hsg hd hd0 hds hrest, ?_⟩
    intro heq
    rw [← heq] at hout
    exact hout (wrapInt_range _)
  · intro hd0 hos hlo hhi
    subst hd0
    rw [fscanf_i_octal ws sg ds rest hws hsg hos hrest, wrapInt_strtolVal_signed _ _ hlo hhi]

/-- Witness for C18 amended: the token `-2147483648`, the least `int`, after a blank
and followed by ` 7`; it is stored as -2147483648, while the token `-3000000000`,
below the range of `int`, is stored as 1294967296. -/
theorem decimal_token_read_as_decimal_witness :
    (∀ c ∈ [' '], isspace c = true) ∧
    (['-'] = ([] : List Char) ∨ ['-'] = ['+'] ∨ ['-'] = ['-']) ∧
    isDigitOf 10 '2' = true ∧ (∀ c ∈ "147483648".toList, isDigitOf 10 c = true) ∧
    (∀ c ∈ " 7\n".toList.head?, isspace c = true) ∧
    signedVal ['-'] (numVal 10 ('2' :: "147483648".toList)) = -2147483648 ∧
    fscanf_i " -2147483648 7\n".toList = some (-2147483648, " 7\n".toList) ∧
    signedVal ['-'] (numVal 10 "3000000000".toList) = -3000000000 ∧
    fscanf_i "-3000000000 ".toList = some (1294967296, " ".toList) ∧
    ((('2' : Char) ≠ '0' →
      -2147483648 ≤ signedVal ['-'] (numVal 10 ('2' :: "147483648".toList)) →
      signedVal ['-'] (numVal 10 ('2' :: "147483648".toList)) ≤ 2147483647 →
      fscanf_i ([' '] ++ (['-'] ++ '2' :: ("147483648".toList ++ " 7\n".toList)))
        = some (signedVal ['-'] (numVal 10 ('2' :: "147483648".toList)), " 7\n".toList)) ∧
    (('2' : Char) ≠ '0' →
      fscanf_i ([' '] ++ (['-'] ++ '2' :: ("147483648".toList ++ " 7\n".toList)))
        = some (wrapInt (strtolVal (decide (['-'] = ['-']))
            (numVal 10 ('2' :: "147483648".toList))), " 7\n".toList)) ∧
    (('2' : Char) ≠ '0' →
      ¬ (-2147483648 ≤ signedVal ['-'] (numVal 10 ('2' :: "147483648".toList)) ∧
          signedVal ['-'] (numVal 10 ('2' :: "147483648".toList)) ≤ 2147483647) →
      ∃ v, fscanf_i ([' '] ++ (['-'] ++ '2' :: ("147483648".toList ++ " 7\n".toList)))
          = some (v, " 7\n".toList) ∧
        v ≠ signedVal ['-'] (numVal 10 ('2' :: "147483648".toList))) ∧
    (('2' : Char) = '0' → (∀ c ∈ "147483648".toList, isDigitOf 8 c = true) →
      -2147483648 ≤ signedVal ['-'] (numVal 8 "147483648".toList) →
      signedVal ['-'] (numVal 8 "147483648".toList) ≤ 2147483647 →
      fscanf_i ([' '] ++ (['-'] ++ '2' :: ("147483648".toList ++ " 7\n".toList)))
        = some (signedVal ['-'] (numVal 8 "147483648".toList), " 7\n".toList))) :=
  ⟨by decide, by decide, by decide, by decide, by decide, by decide, by decide, by decide,
   by decide,
   decimal_token_read_as_decimal [' '] ['-'] '2' "147483648".toList " 7\n".toList
     (by decide) (by decide) (by decide) (by decide) (by decide)⟩

theorem fscanf_i_skip (ws x : List Char) (hws : ∀ c ∈ ws, isspace c = true) :
    fscanf_i (ws ++ x) = fscanf_i x := by
  unfold fscanf_i
  rw [dropWhile_append_all isspace ws x hws]

theorem parsedInts_none (fp : List Char) (h : fscanf_i fp = none) : parsedInts fp = [] := by
  unfold parsedInts
  rw [scanAll, h]

theorem parsedInts_some (fp fp1 : List Char) (a : Int) (h : fscanf_i fp = some (a, fp1)) :
    parsedInts fp = a :: parsedInts fp1 := by
  have hl := fscanf_i_length h
  unfold parsedInts
  rw [scanAll, h]
  simp only
  rw [scanAll_fuel fp.length fp1 hl]
  rfl

theorem parsedInts_tokens : ∀ (toks : List (List Char × Int × List Char)) (ws0 x : List Char),
    (∀ c ∈ ws0, isspace c = true) →
    (∀ p ∈ toks, NumToken p.1 p.2.1 ∧ p.2.2 ≠ [] ∧ ∀ c ∈ p.2.2, isspace c = true) →
    fscanf_i x = none →
    parsedInts (ws0 ++ (tailText toks ++ x)) = toks.map (fun p => p.2.1) := by
  intro toks
  induction toks with
  | nil =>
    intro ws0 x hws0 _ hx
    apply parsedInts_none
    simp only [tailText, List.map_nil, List.flatten_nil, List.nil_append]
    rw [fscanf_i_skip ws0 x hws0, hx]
  | cons p toks ih =>
    intro ws0 x hws0 htoks hx
    obtain ⟨t, v, sep⟩ := p
    obtain ⟨htok, hsep, hsp⟩ := htoks (t, v, sep) (by simp)
    have htext : tailText ((t, v, sep) :: toks) ++ x = t ++ (sep ++ (tailText toks ++ x)) := by
      simp [tailText]
    have hhead : ∀ c ∈ (sep ++ (tailText toks ++ x)).head?, isspace c = true := by
      intro c hc
      cases sep with
      | nil => exact absurd rfl hsep
      | cons w sep =>
        have : c = w := by simpa using hc.symm
        subst this
        exact hsp c (by simp)
    have hscan : fscanf_i (ws0 ++ (tailText ((t, v, sep) :: toks) ++ x))
        = some (v, sep ++ (tailText toks ++ x)) := by
      rw [htext, fscanf_i_skip ws0 _ hws0]
      exact htok.2.2 _ hhead
    rw [parsedInts_some _ _ _ hscan, ih sep x hsp (fun q hq => htoks q (by simp [hq])) hx]
    simp

theorem fscanf_i_none_iff (r : List Char) :
    fscanf_i r = none ↔
      ∀ c ∈ (scanSign (r.dropWhile isspace)).2.head?, isDigitOf 10 c = false := by
  cases hdw : r.dropWhile isspace with
  | nil =>
    have : fscanf_i r = none := by
      unfold fscanf_i
      rw [hdw]
    simp [this, scanSign]
  | cons c r1 =>
    rw [fscanf_i_cons r (c :: r1) (by simp) hdw]
    cases hbody : (scanSign (c :: r1)).2 with
    | nil => simp [scanBase]
    | cons b body =>
      by_cases hb : b = '0'
      · subst hb
        have hz : (scanBase ('0' :: body)).2.1 = true := by
          unfold scanBase
          split <;> simp_all
        have h0 : isDigitOf 10 '0' = true := by decide
        simp [hz, h0]
      · rw [scanBase_nonzero b body hb]
        by_cases hdig : isDigitOf 10 b = true
        · simp [List.takeWhile_cons, hdig]
        · have hdig' : isDigitOf 10 b = false := by simpa using hdig
          simp [List.takeWhile_cons, hdig']

theorem numToken_decimal (sg : List Char) (d : Char) (ds : List Char)
    (hsg : sg = [] ∨ sg = ['+'] ∨ sg = ['-']) (hd : isDigitOf 10 d = true) (hd0 : d ≠ '0')
    (hds : ∀ c ∈ ds, isDigitOf 10 c = true) :
    NumToken (sg ++ d :: ds)
      (wrapInt (strtolVal (decide (sg = ['-'])) (numVal 10 (d :: ds)))) := by
  refine ⟨by simp, ?_, ?_⟩
  · intro c hc
    rcases List.mem_append.mp hc with h | h
    · rcases hsg with rfl | rfl | rfl
      · simp at h
      · have : c = '+' := by simpa using h
        subst this; decide
      · have : c = '-' := by simpa using h
        subst this; decide
    · rcases List.mem_cons.mp h with rfl | h
      · exact digit_not_space _ hd
      · exact digit_not_space _ (hds c h)
  · intro rest hrest
    have := fscanf_i_decimal [] sg d ds rest (by simp) hsg hd hd0 hds hrest
    simpa using this

/-- C17, counterexample: in the tail `1 2 3 4x 9` the token `4x` is not numeric, yet the
parsed sequence is `[1, 2, 3, 4]`, not `[1, 2, 3]`: `%i` reads the `4` and fails only at
`x`.  So `N` is 4, `n_zones` is 2 and two cards are written, where the values of
`1 2 3` alone give `n_zones = 1` and one card. -/
theorem token_beginning_with_digits_is_parsed :
    parsedInts "1 2 3 4x 9\n".toList = [1, 2, 3, 4] ∧
    parsedInts "1 2 3 4x 9\n".toList ≠ [1, 2, 3] ∧
    fscanf_i " 4x 9\n".toList = some (4, "x 9\n".toList) ∧
    fscanf_i "x 9\n".toList = none ∧
    (∀ v : Int, ¬ NumToken "4x".toList v) ∧
    emitAssign [1, 2, 3, 4] []
      = .ok "ASSIGNMAT        5.0       1.0\nASSIGNMAT        6.0       2.0\n".toList ∧
    emitAssign [1, 2, 3] [] = .ok "ASSIGNMAT        4.0       1.0\n".toList := by
  refine ⟨by decide, by decide, by decide, by decide, ?_, by decide, by decide⟩
  intro v h
  have h1 := h.2.2 " ".toList (by decide)
  have h2 : fscanf_i ("4x".toList ++ " ".toList) = some (4, "x ".toList) := by decide
  rw [h2] at h1
  simp only [Option.some.injEq, Prod.mk.injEq] at h1
  exact absurd h1.2 (by decide)

/-- C17, amended: the parser stops at the first failed conversion.  If the tail is,
after any blanks, the numeric tokens `t1 .. tj` (each read whole by `%i`, each
followed by one or more blanks) followed by a text `x` on which the conversion
fails, the parsed sequence is exactly the values of `t1 .. tj`, whatever `x`
holds after the point of failure, and with `j <= 4096` the loop of line 94
stores exactly these values.  A conversion fails exactly when the text, after
blanks and an optional sign, does not begin with a decimal digit; so a token
that begins with digits, such as `4x`, is not such an `x`.  Every optionally
signed string of decimal digits whose first digit is not 0 is a numeric
token. -/
theorem parse_stops_at_first_failed_conversion (ws0 : List Char)
    (toks : List (List Char × Int × List Char)) (x : List Char)
    (hws0 : ∀ c ∈ ws0, isspace c = true)
    (htoks : ∀ p ∈ toks, NumToken p.1 p.2.1 ∧ p.2.2 ≠ [] ∧ ∀ c ∈ p.2.2, isspace c = true)
    (hx : fscanf_i x = none) :
    parsedInts (ws0 ++ (tailText toks ++ x)) = toks.map (fun p => p.2.1) ∧
    (toks.length ≤ 4096 →
      readVals ((ws0 ++ (tailText toks ++ x)).length + 1) (ws0 ++ (tailText toks ++ x)) []
        = .ok (toks.map (fun p => p.2.1))) ∧
    (∀ r : List Char, fscanf_i r = none ↔
      ∀ c ∈ (scanSign (r.dropWhile isspace)).2.head?, isDigitOf 10 c = false) ∧
    (∀ (sg : List Char) (d : Char) (ds : List Char), (sg = [] ∨ sg = ['+'] ∨ sg = ['-']) →
      isDigitOf 10 d = true → d ≠ '0' → (∀ c ∈ ds, isDigitOf 10 c = true) →
      NumToken (sg ++ d :: ds)
        (wrapInt (strtolVal (decide (sg = ['-'])) (numVal 10 (d :: ds))))) := by
  have hp := parsedInts_tokens toks ws0 x hws0 htoks hx
  refine ⟨hp, ?_, fscanf_i_none_iff, numToken_decimal⟩
  intro hj
  have := readVals_parsed (ws0 ++ (tailText toks ++ x)) (by rw [hp]; simpa using hj)
  rw [hp] at this
  exact this

/-- Witness for C17 amended: the tail `1 -2` newline `30 x4 9`. -/
theorem parse_stops_at_first_failed_conversion_witness :
    (∀ c ∈ ([] : List Char), isspace c = true) ∧
    (∀ p ∈ [("1".toList, (1 : Int), " ".toList), ("-2".toList, -2, "\n  ".toList),
        ("30".toList, 30, " ".toList)],
      NumToken p.1 p.2.1 ∧ p.2.2 ≠ [] ∧ ∀ c ∈ p.2.2, isspace c = true) ∧
    fscanf_i "x4 9\n".toList = none ∧
    [] ++ (tailText [("1".toList, (1 : Int), " ".toList), ("-2".toList, -2, "\n  ".toList),
        ("30".toList, 30, " ".toList)] ++ "x4 9\n".toList) = "1 -2\n  30 x4 9\n".toList ∧
    parsedInts ([] ++ (tailText [("1".toList, (1 : Int), " ".toList),
        ("-2".toList, -2, "\n  ".toList), ("30".toList, 30, " ".toList)] ++ "x4 9\n".toList))
      = [("1".toList, (1 : Int), " ".toList), ("-2".toList, -2, "\n  ".toList),
        ("30".toList, 30, " ".toList)].map (fun p => p.2.1) := by
  have h1 : NumToken "1".toList 1 := numToken_decimal [] '1' [] (by decide) (by decide)
    (by decide) (by decide)
  have h2 : NumToken "-2".toList (-2) := numToken_decimal ['-'] '2' [] (by decide) (by decide)
    (by decide) (by decide)
  have h3 : NumToken "30".toList 30 := numToken_decimal [] '3' ['0'] (by decide) (by decide)
    (by decide) (by decide)
  have htoks : ∀ p ∈ [("1".toList, (1 : Int), " ".toList), ("-2".toList, -2, "\n  ".toList),
        ("30".toList, 30, " ".toList)],
      NumToken p.1 p.2.1 ∧ p.2.2 ≠ [] ∧ ∀ c ∈ p.2.2, isspace c = true := by
    intro p hp
    simp only [List.mem_cons, List.mem_singleton, List.not_mem_nil, or_false] at hp
    rcases hp with rfl | rfl | rfl
    · exact ⟨h1, by decide, by decide⟩
    · exact ⟨h2, by decide, by decide⟩
    · exact ⟨h3, by decide, by decide⟩
  exact ⟨by decide, htoks, by decide, by decide,
    (parse_stops_at_first_failed_conversion [] _ "x4 9\n".toList (by decide) htoks
      (by decide)).1⟩

/-! ## The geometry loop on any input -/

theorem sscanf_s_any (k t buff2 : List Char) :
    sscanf_s (k ++ NUL :: t) buff2 = .ok ((firstToken (cstr k)).getD buff2) := by
  unfold sscanf_s
  rw [cstrOf_terminated k t]
  cases hf : firstToken (cstr k) <;> simp [bind, Except.bind, hf, pure, Except.pure]

theorem fprintf_s_any (out k t : List Char) :
    fprintf_s out (k ++ NUL :: t) = .ok (out ++ cstr k) := by
  unfold fprintf_s
  rw [cstrOf_terminated k t]
  rfl

theorem geoBody_chunk (st : State) (hbuf : st.buff.length = 100) :
    ∃ b, b.length = 100 ∧
      geoBody st = .ok ⟨st.fp.drop (lineChunk 99 st.fp).length,
        st.fp_out ++ cstr (lineChunk 99 st.fp), b,
        (firstToken (cstr (lineChunk 99 st.fp))).getD st.buff2⟩ := by
  have hle := lineChunk_length_le 99 st.fp
  refine ⟨lineChunk 99 st.fp ++ NUL :: st.buff.drop ((lineChunk 99 st.fp).length + 1), ?_, ?_⟩
  · simp [hbuf]; omega
  · unfold geoBody
    rw [mygetline_chunk st.fp st.buff hbuf]
    dsimp only
    rw [sscanf_s_any, fprintf_s_any]
    rfl

theorem lineChunk_pos (n : Nat) (x : Char) (r : List Char) :
    0 < (lineChunk (n + 1) (x :: r)).length := by
  rw [lineChunk]
  split <;> simp

theorem lineBuffers_fuel : ∀ (fuel : Nat) (fp : List Char), fp.length ≤ fuel →
    lineBuffers fuel fp = lineBuffersOf fp := by
  intro fuel
  induction fuel using Nat.strong_induction_on with
  | _ fuel ih =>
    intro fp hle
    unfold lineBuffersOf
    cases fp with
    | nil => cases fuel <;> simp [lineBuffers]
    | cons x r =>
      obtain ⟨f, rfl⟩ : ∃ f, fuel = f + 1 := ⟨fuel - 1, by simp at hle; omega⟩
      have hpos : 0 < (lineChunk 99 (x :: r)).length := lineChunk_pos 98 x r
      have hdrop : ((x :: r).drop (lineChunk 99 (x :: r)).length).length ≤ r.length := by
        simp only [List.length_drop, List.length_cons]
        omega
      simp only [List.length_cons, lineBuffers, if_neg (List.cons_ne_nil x r)]
      rw [ih f (by omega) _ (by simp at hle; omega),
        ih r.length (by simp at hle; omega) _ hdrop]

theorem lineBuffersOf_cons (x : Char) (r : List Char) :
    lineBuffersOf (x :: r)
      = lineChunk 99 (x :: r) :: lineBuffersOf ((x :: r).drop (lineChunk 99 (x :: r)).length) := by
  have hpos : 0 < (lineChunk 99 (x :: r)).length := lineChunk_pos 98 x r
  have hdrop : ((x :: r).drop (lineChunk 99 (x :: r)).length).length ≤ r.length := by
    simp only [List.length_drop, List.length_cons]
    omega
  conv_lhs => unfold lineBuffersOf
  simp only [List.length_cons, lineBuffers, if_neg (List.cons_ne_nil x r)]
  rw [lineBuffers_fuel r.length _ hdrop]

theorem lineBuffersOf_nil : lineBuffersOf [] = [] := rfl

theorem whileLoop_zero_running (body : State → Except Fault State) (st : State)
    (h : st.buff2 ≠ END) : whileLoop notEnd body 0 st = .error .outOfFuel := by
  have hc : notEnd st = true := by simp [notEnd, h]
  simp [whileLoop, hc]

theorem geoLoop_never_stops : ∀ (fuel : Nat) (st : State), st.buff.length = 100 →
    st.buff2 ≠ END → (∀ k ∈ lineBuffersOf st.fp, firstToken (cstr k) ≠ some END) →
    geoLoop fuel st = .error .outOfFuel := by
  intro fuel
  induction fuel with
  | zero =>
    intro st _ hb2 _
    exact whileLoop_zero_running geoBody st hb2
  | succ n ih =>
    intro st hbuf hb2 hall
    obtain ⟨b, hb, hrun⟩ := geoBody_chunk st hbuf
    unfold geoLoop
    rw [whileLoop_step geoBody n st _ hb2 hrun]
    cases hfp : st.fp with
    | nil =>
      rw [hfp] at hall
      have hk : lineChunk 99 ([] : List Char) = [] := rfl
      simp only [hk, List.drop_nil]
      apply ih
      · exact hb
      · have : firstToken (cstr []) = none := by decide
        simpa [this] using hb2
      · simp [lineBuffersOf_nil]
    | cons x r =>
      rw [hfp, lineBuffersOf_cons] at hall
      apply ih
      · exact hb
      · have hne := hall (lineChunk 99 (x :: r)) (by simp)
        cases ht : firstToken (cstr (lineChunk 99 (x :: r))) with
        | none => simpa using hb2
        | some t =>
          rw [ht] at hne
          simpa using fun h => hne (by rw [h])
      · intro k hk
        exact hall k (by simp [hk])

theorem geoLoop_stops : ∀ (pre : List (List Char)) (e : List Char) (post : List (List Char))
    (st : State) (fuel : Nat), lineBuffersOf st.fp = pre ++ e :: post →
    (∀ k ∈ pre, firstToken (cstr k) ≠ some END) → firstToken (cstr e) = some END →
    st.buff.length = 100 → st.buff2 ≠ END → pre.length + 1 ≤ fuel →
    ∃ b, b.length = 100 ∧
      geoLoop fuel st = .ok ⟨st.fp.drop (pre ++ [e]).flatten.length,
        st.fp_out ++ ((pre ++ [e]).map cstr).flatten, b, END⟩ := by
  intro pre
  induction pre with
  | nil =>
    intro e post st fuel hbs _ hend hbuf hb2 hfuel
    obtain ⟨n, rfl⟩ : ∃ n, fuel = n + 1 := ⟨fuel - 1, by simp at hfuel; omega⟩
    obtain ⟨b, hb, hrun⟩ := geoBody_chunk st hbuf
    cases hfp : st.fp with
    | nil => rw [hfp, lineBuffersOf_nil] at hbs; simp at hbs
    | cons x r =>
      rw [hfp, lineBuffersOf_cons] at hbs
      simp only [List.nil_append, List.cons.injEq] at hbs
      rw [hfp, hbs.1] at hrun
      refine ⟨b, hb, ?_⟩
      unfold geoLoop
      rw [whileLoop_step geoBody n st _ hb2 hrun, whileLoop_stop geoBody n _ (by simp [hend])]
      simp [hend]
  | cons k pre ih =>
    intro e post st fuel hbs hpre hend hbuf hb2 hfuel
    obtain ⟨n, rfl⟩ : ∃ n, fuel = n + 1 := ⟨fuel - 1, by simp at hfuel; omega⟩
    obtain ⟨b, hb, hrun⟩ := geoBody_chunk st hbuf
    cases hfp : st.fp with
    | nil => rw [hfp, lineBuffersOf_nil] at hbs; simp at hbs
    | cons x r =>
      rw [hfp, lineBuffersOf_cons] at hbs
      simp only [List.cons_append, List.cons.injEq] at hbs
      rw [hfp, hbs.1] at hrun
      have hne := hpre k (by simp)
      have hb2' : (firstToken (cstr k)).getD st.buff2 ≠ END := by
        cases ht : firstToken (cstr k) with
        | none => simpa using hb2
        | some t =>
          rw [ht] at hne
          simpa using fun h => hne (by rw [h])
      obtain ⟨b', hb', hrun'⟩ := ih e post
        ⟨(x :: r).drop k.length, st.fp_out ++ cstr k, b, (firstToken (cstr k)).getD st.buff2⟩ n
        (by rw [← hbs.1]; exact hbs.2) (fun k' hk' => hpre k' (by simp [hk'])) hend hb hb2'
        (by simp at hfuel; omega)
      refine ⟨b', hb', ?_⟩
      unfold geoLoop at hrun' ⊢
      rw [whileLoop_step geoBody n st _ hb2 hrun, hrun']
      simp [List.drop_drop, Nat.add_comm]

theorem cstr_of_nul_free (k : List Char) (h : NUL ∉ k) : cstr k = k := by
  rw [← cstr_append_nul_any k [], cstr_append_nul k [] h]

theorem geoLoop_passthrough : ∀ (fuel : Nat) (st : State), st.buff.length = 100 →
    NUL ∉ st.fp →
    (∃ (st1 : State) (c : List Char), geoLoop fuel st = .ok st1 ∧ st.fp = c ++ st1.fp ∧
      st1.fp_out = st.fp_out ++ c) ∨ geoLoop fuel st = .error .outOfFuel := by
  intro fuel
  induction fuel with
  | zero =>
    intro st _ _
    by_cases hb2 : st.buff2 = END
    · left
      exact ⟨st, [], whileLoop_stop geoBody 0 st hb2, by simp, by simp⟩
    · right
      exact whileLoop_zero_running geoBody st hb2
  | succ n ih =>
    intro st hbuf hnul
    by_cases hb2 : st.buff2 = END
    · left
      exact ⟨st, [], whileLoop_stop geoBody (n + 1) st hb2, by simp, by simp⟩
    · obtain ⟨b, hb, hrun⟩ := geoBody_chunk st hbuf
      have hsplit := lineChunk_append_drop 99 st.fp
      have hknul : NUL ∉ lineChunk 99 st.fp := by
        intro h
        apply hnul
        rw [← hsplit]
        exact List.mem_append_left _ h
      have hrnul : NUL ∉ st.fp.drop (lineChunk 99 st.fp).length :=
        fun h => hnul (List.mem_of_mem_drop h)
      rw [cstr_of_nul_free _ hknul] at hrun
      have hstep : geoLoop (n + 1) st = geoLoop n _ := whileLoop_step geoBody n st _ hb2 hrun
      rcases ih ⟨st.fp.drop (lineChunk 99 st.fp).length, st.fp_out ++ lineChunk 99 st.fp, b,
          (firstToken (lineChunk 99 st.fp)).getD st.buff2⟩ hb hrnul with
        ⟨st1, c, h1, h2, h3⟩ | h1
      · left
        refine ⟨st1, lineChunk 99 st.fp ++ c, by rw [hstep, h1], ?_, ?_⟩
        · simp only at h2
          rw [List.append_assoc, ← h2, hsplit]
        · simp only at h3
          rw [h3, List.append_assoc]
      · right
        rw [hstep, h1]

theorem exists_first_END : ∀ (bs : List (List Char)),
    (∃ k ∈ bs, firstToken (cstr k) = some END) →
    ∃ pre e post, bs = pre ++ e :: post ∧ (∀ k ∈ pre, firstToken (cstr k) ≠ some END) ∧
      firstToken (cstr e) = some END := by
  intro bs
  induction bs with
  | nil => rintro ⟨k, hk, _⟩; simp at hk
  | cons a bs ih =>
    rintro ⟨k, hk, hend⟩
    by_cases ha : firstToken (cstr a) = some END
    · exact ⟨[], a, bs, rfl, by simp, ha⟩
    · have hk' : k ∈ bs := by
        rcases List.mem_cons.mp hk with rfl | h
        · exact absurd hend ha
        · exact h
      obtain ⟨pre, e, post, h1, h2, h3⟩ := ih ⟨k, hk', hend⟩
      refine ⟨a :: pre, e, post, by rw [h1]; rfl, ?_, h3⟩
      intro k2 hk2
      rcases List.mem_cons.mp hk2 with rfl | h
      · exact ha
      · exact h2 k2 h

theorem geoLoop_terminates (st : State) (hbuf : st.buff.length = 100) (hb2 : st.buff2 ≠ END)
    (h : ∃ k ∈ lineBuffersOf st.fp, firstToken (cstr k) = some END) :
    ∃ n, ∀ fuel, n ≤ fuel → ∃ st1, geoLoop fuel st = .ok st1 := by
  obtain ⟨pre, e, post, h1, h2, h3⟩ := exists_first_END _ h
  refine ⟨pre.length + 1, ?_⟩
  intro fuel hfuel
  obtain ⟨b, _, hrun⟩ := geoLoop_stops pre e post st fuel h1 h2 h3 hbuf hb2 hfuel
  exact ⟨_, hrun⟩

/-- C20: when the geometry loop is entered (with `buff2` not `END`, as after line 58)
and no line buffer read from the remaining input has `END` as its first token,
the loop never terminates: it is still running after any number of iterations.
Once the input is exhausted, `mygetline` returns `EOF` and leaves the empty
string in `buff`, the token scan fails, and the iteration leaves the input,
the string of `buff2` and the output as they were, so the test of the loop
stays true.  Conversely, when some line buffer has `END` as its first token,
the loop terminates: it returns for every large enough fuel. -/
theorem geoLoop_terminates_iff_END_line (st : State) (hbuf : st.buff.length = 100)
    (hb2 : st.buff2 ≠ END) :
    ((∀ k ∈ lineBuffersOf st.fp, firstToken (cstr k) ≠ some END) →
      ∀ fuel, geoLoop fuel st = .error .outOfFuel) ∧
    (st.fp = [] →
      mygetline st.fp st.buff len = ⟨NUL :: st.buff.drop 1, [], EOF⟩ ∧
      cstrOf (NUL :: st.buff.drop 1) = .ok [] ∧ firstToken [] = none ∧
      geoBody st = .ok ⟨[], st.fp_out, NUL :: st.buff.drop 1, st.buff2⟩ ∧
      notEnd ⟨[], st.fp_out, NUL :: st.buff.drop 1, st.buff2⟩ = true) ∧
    ((∃ k ∈ lineBuffersOf st.fp, firstToken (cstr k) = some END) →
      ∃ n, ∀ fuel, n ≤ fuel → ∃ st1, geoLoop fuel st = .ok st1) := by
  refine ⟨fun h fuel => geoLoop_never_stops fuel st hbuf hb2 h, ?_,
    geoLoop_terminates st hbuf hb2⟩
  intro hfp
  have hget : mygetline st.fp st.buff len = ⟨NUL :: st.buff.drop 1, [], EOF⟩ := by
    rw [mygetline_chunk st.fp st.buff hbuf, hfp]
    simp [lineChunk]
  have hft : firstToken [] = none := by decide
  refine ⟨hget, cstrOf_terminated [] _, hft, ?_, by simp [notEnd, hb2]⟩
  unfold geoBody
  rw [hget]
  dsimp only
  have h1 := sscanf_s_any [] (st.buff.drop 1) st.buff2
  have h2 := fprintf_s_any st.fp_out [] (st.buff.drop 1)
  simp only [List.nil_append] at h1 h2
  rw [h1, h2]
  have hc : cstr [] = [] := rfl
  simp [hft, hc, bind, Except.bind, pure, Except.pure]

/-- Witness for C20: an input of three lines, none with first token `END`. -/
theorem geoLoop_terminates_iff_END_line_witness :
    (List.replicate 100 'q').length = 100 ∧ ([] : List Char) ≠ END ∧
    (∀ k ∈ lineBuffersOf "  RCC 1\nX END\nENDX\n".toList, firstToken (cstr k) ≠ some END) ∧
    (∀ fuel, geoLoop fuel ⟨"  RCC 1\nX END\nENDX\n".toList, [], List.replicate 100 'q', []⟩
      = .error .outOfFuel) :=
  ⟨by decide, by decide, by decide,
   (geoLoop_terminates_iff_END_line
     ⟨"  RCC 1\nX END\nENDX\n".toList, [], List.replicate 100 'q', []⟩
     (by decide) (by decide)).1 (by decide)⟩

/-! ## The geometry body as a passthrough -/

theorem mem_of_mem_lineBuffers : ∀ (n : Nat) (fp k : List Char) (c : Char),
    k ∈ lineBuffers n fp → c ∈ k → c ∈ fp := by
  intro n
  induction n with
  | zero => intro fp k c hk; simp [lineBuffers] at hk
  | succ n ih =>
    intro fp k c hk hc
    rw [lineBuffers] at hk
    split at hk
    · simp at hk
    · rcases List.mem_cons.mp hk with rfl | h
      · rw [← lineChunk_append_drop 99 fp]
        exact List.mem_append_left _ hc
      · exact List.mem_of_mem_drop (ih _ k c h hc)

/-- C14: on text (no NUL character) the geometry loop is a pure passthrough,
whatever the length of the lines: each iteration writes exactly the characters
that `mygetline` took from the input, at most 99 of them, and for a line of 99
or more characters these are its first 99 characters, the rest being left for
the next calls; a run of the loop never faults, and whenever it returns, the
text it wrote is equal to the stretch of input it consumed, a prefix of the
input that remained after the title line; it returns, for every large enough
fuel, when some line buffer has `END` as its first token. -/
theorem geoLoop_writes_what_it_reads (st : State) (hbuf : st.buff.length = 100)
    (hnul : NUL ∉ st.fp) :
    (∃ (st1 : State) (k : List Char), geoBody st = .ok st1 ∧ k.length ≤ 99 ∧
      st.fp = k ++ st1.fp ∧ st1.fp_out = st.fp_out ++ k ∧
      (∀ l rest : List Char, st.fp = l ++ rest → l.length = 99 → '\n' ∉ l → k = l)) ∧
    (∀ fuel,
      (∃ (st1 : State) (c : List Char), geoLoop fuel st = .ok st1 ∧ st.fp = c ++ st1.fp ∧
        st1.fp_out = st.fp_out ++ c) ∨ geoLoop fuel st = .error .outOfFuel) ∧
    (st.buff2 ≠ END → (∃ k ∈ lineBuffersOf st.fp, firstToken k = some END) →
      ∃ n, ∀ fuel, n ≤ fuel → ∃ (st1 : State) (c : List Char),
        geoLoop fuel st = .ok st1 ∧ st.fp = c ++ st1.fp ∧ st1.fp_out = st.fp_out ++ c) := by
  have hsplit := lineChunk_append_drop 99 st.fp
  have hknul : NUL ∉ lineChunk 99 st.fp := by
    intro h
    apply hnul
    rw [← hsplit]
    exact List.mem_append_left _ h
  refine ⟨?_, fun fuel => geoLoop_passthrough fuel st hbuf hnul, ?_⟩
  · obtain ⟨b, _, hrun⟩ := geoBody_chunk st hbuf
    rw [cstr_of_nul_free _ hknul] at hrun
    refine ⟨_, lineChunk 99 st.fp, hrun, lineChunk_length_le 99 st.fp, hsplit.symm, rfl, ?_⟩
    intro l rest hl hlen hnl
    rw [lineChunk_no_newline 99 st.fp, hl, ← hlen]
    · simp
    · intro p hp hget
      rw [hl, List.getElem?_append_left (by omega)] at hget
      exact hnl (List.getElem?_mem hget)
  · intro hb2 hex
    have hex' : ∃ k ∈ lineBuffersOf st.fp, firstToken (cstr k) = some END := by
      obtain ⟨k, hk, hend⟩ := hex
      refine ⟨k, hk, ?_⟩
      rw [cstr_of_nul_free k (fun h => hnul (mem_of_mem_lineBuffers _ _ k NUL hk h))]
      exact hend
    obtain ⟨n, hn⟩ := geoLoop_terminates st hbuf hb2 hex'
    refine ⟨n, ?_⟩
    intro fuel hfuel
    obtain ⟨st1, hst1⟩ := hn fuel hfuel
    rcases geoLoop_passthrough fuel st hbuf hnul with ⟨st2, c, h1, h2, h3⟩ | h
    · exact ⟨st2, c, h1, h2, h3⟩
    · rw [hst1] at h
      exact absurd h (by simp)

set_option maxRecDepth 20000 in
/-- Witness for C14: a line of 150 characters `x`, then the line `END`, then a zone
line. -/
theorem geoLoop_writes_what_it_reads_witness :
    (List.replicate 100 'q').length = 100 ∧
    NUL ∉ List.replicate 150 'x' ++ "\nEND\n  Z01\n".toList ∧
    ([] : List Char) ≠ END ∧
    (∃ k ∈ lineBuffersOf (List.replicate 150 'x' ++ "\nEND\n  Z01\n".toList),
      firstToken k = some END) ∧
    (∃ n, ∀ fuel, n ≤ fuel → ∃ (st1 : State) (c : List Char),
      geoLoop fuel ⟨List.replicate 150 'x' ++ "\nEND\n  Z01\n".toList, [],
        List.replicate 100 'q', []⟩ = .ok st1 ∧
      List.replicate 150 'x' ++ "\nEND\n  Z01\n".toList = c ++ st1.fp ∧
      st1.fp_out = [] ++ c) ∧
    (geoLoop 3 ⟨List.replicate 150 'x' ++ "\nEND\n  Z01\n".toList, [],
        List.replicate 100 'q', []⟩).toOption.map (fun s => (s.fp, s.fp_out))
      = some ("  Z01\n".toList, List.replicate 150 'x' ++ "\nEND\n".toList) :=
  ⟨by decide, by decide, by decide, ⟨"END\n".toList, by decide, by decide⟩,
   (geoLoop_writes_what_it_reads
     ⟨List.replicate 150 'x' ++ "\nEND\n  Z01\n".toList, [], List.replicate 100 'q', []⟩
     (by decide) (by decide)).2.2 (by decide) ⟨"END\n".toList, by decide, by decide⟩,
   by decide⟩

/-! ## Line framing in the zone list -/

set_option maxRecDepth 20000 in
/-- C13, the code at the failing inputs: for the primary zone-list line `"  Z01  1\n"`, of
8 characters before its newline, the store of line 86 replaces the newline at
position 8 by `'5'`, so the line is written without its newline and the next
line follows on the same output line: the zone list `"  Z01  1\nEND\n"` has two
newlines and its output `"  Z01  15END\n"` has one.  For the primary line
`"  xyzab\n"`, of 7 characters before its newline, the store replaces the
terminator, and the line is written followed by `'5'` and by what `buff` still
held of the line before: the zone list of three lines below has three newlines
and its output has four.  The first zone list, in a whole input file, gives
the same text in `output.inp`. -/
theorem short_primary_line_breaks_framing :
    (zoneLoop 2 ⟨"  Z01  1\nEND\n0 1\n".toList, [], List.replicate 100 NUL, []⟩).toOption.map
        (fun s => (s.fp, s.fp_out))
      = some ("0 1\n".toList, "  Z01  15END\n".toList) ∧
    "  Z01  1\nEND\n".toList.count '\n' = 2 ∧ "  Z01  15END\n".toList.count '\n' = 1 ∧
    (zoneLoop 3 ⟨"  Z01    5   +1\n  xyzab\nEND\n0 1\n".toList, [], List.replicate 100 NUL,
        []⟩).toOption.map (fun s => (s.fp, s.fp_out))
      = some ("0 1\n".toList, "  Z01   55   +1\n  xyzab\n55   +1\nEND\n".toList) ∧
    "  Z01    5   +1\n  xyzab\nEND\n".toList.count '\n' = 3 ∧
    "  Z01   55   +1\n  xyzab\n55   +1\nEND\n".toList.count '\n' = 4 ∧
    ((main 2 ["shield2fluka".toList, "pasin.dat".toList]
        (fun _ => some "TESTGEO1                    \nEND\n  Z01  1\nEND\n0 1\n".toList) true
        (List.replicate 100 NUL)).toOption.bind (fun r => r.output)).map
          (fun o => (o.drop (HEADER.length + 29 + 4 + REGRULE.length)).take 13)
      = some "  Z01  15END\n".toList := by
  decide

set_option maxRecDepth 20000 in
/-- A closing line longer than the line buffer is not recognised.  The line of 97
blanks followed by `END` has first token `END`, but with its newline it has 101
characters: `mygetline` hands it over as the buffer of 97 blanks and `EN` and
then the buffer `D` with the newline, and neither has first token `END`.  On an
input whose title has 28 characters and whose two closing lines are such lines,
no line buffer has first token `END`, and `main` is still in the loop of line 66
at every fuel: the layout of the output needs the lines of the geometry body
and of the zone list to fit the buffer. -/
theorem long_END_line_never_found (fuel : Nat) :
    firstToken (List.replicate 97 ' ' ++ END) = some END ∧
    ¬ TextLine (List.replicate 97 ' ' ++ END) ∧
    lineBuffersOf (List.replicate 97 ' ' ++ "END\n".toList)
      = [List.replicate 97 ' ' ++ "EN".toList, "D\n".toList] ∧
    firstToken (List.replicate 97 ' ' ++ "EN".toList) = some "EN".toList ∧
    firstToken "D\n".toList = some "D".toList ∧
    main fuel ["shield2fluka".toList, "pasin.dat".toList]
        (fun _ => some ("TESTGEO1                    ".toList ++ '\n' ::
          (List.replicate 97 ' ' ++ "END\n  Z01    1   +1\n".toList
            ++ (List.replicate 97 ' ' ++ "END\n0 2 1 5\n".toList))))
        true (List.replicate 100 NUL)
      = .error .outOfFuel := by
  refine ⟨by decide, by decide, by decide, by decide, by decide, ?_⟩
  obtain ⟨b1, hb1, h1⟩ := titlePhase_line
    ⟨"TESTGEO1                    ".toList ++ '\n' ::
          (List.replicate 97 ' ' ++ "END\n  Z01    1   +1\n".toList
            ++ (List.replicate 97 ' ' ++ "END\n0 2 1 5\n".toList)),
      HEADER, List.replicate 100 NUL, []⟩ "TESTGEO1                    ".toList _
    (by decide) (by decide) (by decide) rfl
  have hall : ∀ k ∈ lineBuffersOf (List.replicate 97 ' ' ++ "END\n  Z01    1   +1\n".toList
            ++ (List.replicate 97 ' ' ++ "END\n0 2 1 5\n".toList)),
      firstToken (cstr k) ≠ some END := by decide
  have h2 := geoLoop_never_stops fuel
    ⟨List.replicate 97 ' ' ++ "END\n  Z01    1   +1\n".toList
            ++ (List.replicate 97 ' ' ++ "END\n0 2 1 5\n".toList),
      HEADER ++ (List.replicate 20 ' ' ++ ("TESTGEO1                    ".toList ++ ['\n']).drop 20),
      b1, []⟩ hb1 nil_ne_END hall
  unfold main
  rw [if_neg (by decide)]
  simp only [List.getElem?_cons_succ, List.getElem?_cons_zero]
  unfold transcode
  dsimp only
  rw [h1]
  simp only [bind, Except.bind]
  rw [h2]
  rfl

end Shield2Fluka
